import Mathlib

/-!
Verification of the ApplyMate AI-response pipeline.

This development shallowly embeds the core logic of the repository:
the JSON extraction and schema validation performed on the generative-AI
response (`_extractJSON`, `_validateResponse`, `analyzeResume` in
`services/aiService`), the model-resolution logic (`_initializeModel`),
and the persistence-free analysis route of `server.js`.

JavaScript strings are modelled as `List Char` (`Str`). JSON numbers are
modelled as exact rationals: every finite IEEE-754 double is a rational,
numeric comparisons and `Math.round` on doubles agree with the rational
semantics used here, and `JSON.parse` can never produce `NaN`. External
collaborators (the network call performing inference, the Firestore
client, `getGenerativeModel`) are modelled as explicit parameters.
-/

namespace ApplyMate

/-- JavaScript strings, modelled as lists of Unicode scalar values. -/
abbrev Str := List Char

/-! ## String primitives mirroring the JavaScript built-ins used by the source -/

/-- The whitespace characters stripped by `String.prototype.trim`
(restricted to the ASCII whitespace actually relevant to the pipeline). -/
def wsChar (c : Char) : Bool :=
  c = ' ' || c = '\t' || c = '\n' || c = '\r' || c = '\x0b' || c = '\x0c'

/-- `String.prototype.trim`. -/
def jsTrim (s : Str) : Str :=
  ((s.dropWhile wsChar).reverse.dropWhile wsChar).reverse

/-- `leadsWith pat s` holds when `pat` occurs at the very start of `s`. -/
def leadsWith : Str → Str → Bool
  | [], _ => true
  | _ :: _, [] => false
  | c :: cs, d :: ds => c = d && leadsWith cs ds

/-- Index of the first occurrence of `sep` inside `s`
(`String.prototype.indexOf` for string needles). -/
def findSubstr (sep : Str) : Str → Option Nat
  | [] => if leadsWith sep [] then some 0 else none
  | c :: rest =>
    if leadsWith sep (c :: rest) then some 0
    else (findSubstr sep rest).map (· + 1)

/-- `String.prototype.includes`. -/
def jsIncludes (s sub : Str) : Bool := (findSubstr sub s).isSome

/-- Fuel-indexed worker for `jsSplit`; the fuel only bounds the recursion
depth and `jsSplit` always supplies enough of it. -/
def jsSplitF (sep : Str) : Nat → Str → List Str
  | 0, s => [s]
  | fuel + 1, s =>
    match findSubstr sep s with
    | none => [s]
    | some i => s.take i :: jsSplitF sep fuel (s.drop (i + sep.length))

/-- `String.prototype.split` with a non-empty string separator (the source
only ever splits on the fence markers, which are non-empty). -/
def jsSplit (sep s : Str) : List Str := jsSplitF sep (s.length + 1) s

/-- `String.prototype.indexOf` for a single character. -/
def jsIndexOf (c : Char) : Str → Option Nat
  | [] => none
  | d :: rest => if d = c then some 0 else (jsIndexOf c rest).map (· + 1)

/-- `String.prototype.lastIndexOf` for a single character. -/
def jsLastIndexOf (c : Char) : Str → Option Nat
  | [] => none
  | d :: rest =>
    match jsLastIndexOf c rest with
    | some i => some (i + 1)
    | none => if d = c then some 0 else none

/-- `String.prototype.replace` with a plain-string pattern: replaces the
first occurrence only, the empty result when the pattern is absent is `s`. -/
def jsReplaceFirst (s pat repl : Str) : Str :=
  match findSubstr pat s with
  | none => s
  | some i => s.take i ++ repl ++ s.drop (i + pat.length)

/-! ## JSON values and a model of `JSON.parse` -/

/-- An exact decimal number `m * 10 ^ e`. JSON numeric literals denote
such values exactly; JavaScript numeric comparisons and `Math.round` on
the parsed value agree with the exact semantics given by `DecNum.toRat`
(`JSON.parse` can never produce `NaN`). Kept unnormalized so that every
operation is plain integer arithmetic. -/
structure DecNum where
  m : Int
  e : Int
deriving DecidableEq

def DecNum.ofInt (n : Int) : DecNum := ⟨n, 0⟩

/-- The rational value denoted by a decimal. -/
def DecNum.toRat (a : DecNum) : ℚ := (a.m : ℚ) * 10 ^ a.e

/-- Exact `<` on decimals, by aligning exponents — integer arithmetic
only. -/
def DecNum.blt (a b : DecNum) : Bool :=
  if a.e ≤ b.e then decide (a.m < b.m * 10 ^ (b.e - a.e).toNat)
  else decide (a.m * 10 ^ (a.e - b.e).toNat < b.m)

/-- ECMAScript `Math.round` on a decimal: the integer nearest to the
value, ties toward `+∞` — `⌊x + 1/2⌋` computed exactly with integer
floor division. -/
def DecNum.roundInt (a : DecNum) : Int :=
  if 0 ≤ a.e then a.m * 10 ^ a.e.toNat
  else (2 * a.m + 10 ^ (-a.e).toNat) / (2 * 10 ^ (-a.e).toNat)

/-- Parsed JSON values. -/
inductive JValue where
  | jnull : JValue
  | jbool : Bool → JValue
  | num : DecNum → JValue
  | str : Str → JValue
  | arr : List JValue → JValue
  | obj : List (Str × JValue) → JValue

/-- A parsed JSON object: key/value bindings in source order. -/
abbrev JObject := List (Str × JValue)

/-- JSON insignificant whitespace. -/
def jsonWsChar (c : Char) : Bool :=
  c = ' ' || c = '\t' || c = '\n' || c = '\r'

def skipWs (s : Str) : Str := s.dropWhile jsonWsChar

def hexVal (c : Char) : Option Nat :=
  if '0' ≤ c ∧ c ≤ '9' then some (c.toNat - 48)
  else if 'a' ≤ c ∧ c ≤ 'f' then some (c.toNat - 87)
  else if 'A' ≤ c ∧ c ≤ 'F' then some (c.toNat - 55)
  else none

/-- Single-character JSON string escapes (`\u` handled separately). -/
def escChar (e : Char) : Option Char :=
  if e = '"' then some '"'
  else if e = '\\' then some '\\'
  else if e = '/' then some '/'
  else if e = 'b' then some '\x08'
  else if e = 'f' then some '\x0c'
  else if e = 'n' then some '\n'
  else if e = 'r' then some '\r'
  else if e = 't' then some '\t'
  else none

/-- Body of a JSON string literal, after the opening quote. Lone surrogates
from `\u` escapes are replaced by U+FFFD (Lean `Char` is a scalar value;
the claims never exercise surrogates). -/
def parseStringBody : Str → Option (Str × Str)
  | [] => none
  | c :: rest =>
    if c = '"' then some ([], rest)
    else if c = '\\' then
      match rest with
      | [] => none
      | e :: rest2 =>
        if e = 'u' then
          match rest2 with
          | h1 :: h2 :: h3 :: h4 :: rest3 =>
            match hexVal h1, hexVal h2, hexVal h3, hexVal h4 with
            | some a, some b, some c2, some d =>
              let n := ((a * 16 + b) * 16 + c2) * 16 + d
              let ch := if n < 0xd800 then Char.ofNat n
                        else if 0xdfff < n then Char.ofNat n
                        else Char.ofNat 0xfffd
              (parseStringBody rest3).map (fun p => (ch :: p.1, p.2))
            | _, _, _, _ => none
          | _ => none
        else
          match escChar e with
          | some ch => (parseStringBody rest2).map (fun p => (ch :: p.1, p.2))
          | none => none
    else if c.toNat < 0x20 then none
    else (parseStringBody rest).map (fun p => (c :: p.1, p.2))

def digitVal (c : Char) : Option Nat :=
  if '0' ≤ c ∧ c ≤ '9' then some (c.toNat - 48) else none

def takeDigits : Str → (List Nat × Str)
  | [] => ([], [])
  | c :: rest =>
    match digitVal c with
    | some d =>
      let p := takeDigits rest
      (d :: p.1, p.2)
    | none => ([], c :: rest)

def digitsToNat (ds : List Nat) : Nat := ds.foldl (fun a d => a * 10 + d) 0

/-- A JSON number literal (sign, integer part with the leading-zero rule,
optional fraction, optional exponent), read off exactly as a decimal. -/
def parseNumberBody (s : Str) : Option (DecNum × Str) :=
  let signed : Bool × Str :=
    match s with
    | '-' :: r => (true, r)
    | _ => (false, s)
  match signed.2 with
  | [] => none
  | c :: r1 =>
    match digitVal c with
    | none => none
    | some d0 =>
      let ip : List Nat × Str :=
        if c = '0' then ([0], r1) else takeDigits (c :: r1)
      let intPart := ip.1
      let s2 := ip.2
      let fracStep : Option (List Nat × Str) :=
        match s2 with
        | '.' :: r2 =>
          let fp := takeDigits r2
          if fp.1.isEmpty then none else some (fp.1, fp.2)
        | _ => some ([], s2)
      match fracStep with
      | none => none
      | some (fracDs, s3) =>
        let expStep : Option (Bool × List Nat × Str) :=
          match s3 with
          | 'e' :: r3 =>
            match r3 with
            | '+' :: r4 => let ep := takeDigits r4
                           if ep.1.isEmpty then none else some (false, ep.1, ep.2)
            | '-' :: r4 => let ep := takeDigits r4
                           if ep.1.isEmpty then none else some (true, ep.1, ep.2)
            | _ => let ep := takeDigits r3
                   if ep.1.isEmpty then none else some (false, ep.1, ep.2)
          | 'E' :: r3 =>
            match r3 with
            | '+' :: r4 => let ep := takeDigits r4
                           if ep.1.isEmpty then none else some (false, ep.1, ep.2)
            | '-' :: r4 => let ep := takeDigits r4
                           if ep.1.isEmpty then none else some (true, ep.1, ep.2)
            | _ => let ep := takeDigits r3
                   if ep.1.isEmpty then none else some (false, ep.1, ep.2)
          | _ => some (false, [], s3)
        match expStep with
        | none => none
        | some (expNeg, expDs, s4) =>
          let mNat := digitsToNat (intPart ++ fracDs)
          let mInt : Int := if signed.1 then -(mNat : Int) else (mNat : Int)
          let e : Int :=
            (if expNeg then -(digitsToNat expDs : Int) else (digitsToNat expDs : Int)) -
              (fracDs.length : Int)
          let _ := d0
          some (⟨mInt, e⟩, s4)

mutual

/-- One JSON value, fuel-indexed (`jsonParse` supplies ample fuel). -/
def parseValue : Nat → Str → Option (JValue × Str)
  | 0, _ => none
  | fuel + 1, s =>
    match skipWs s with
    | [] => none
    | c :: rest =>
      if c = '\x7b' then
        (parseMembers fuel (skipWs rest) true).map (fun p => (JValue.obj p.1, p.2))
      else if c = '[' then
        (parseElements fuel (skipWs rest) true).map (fun p => (JValue.arr p.1, p.2))
      else if c = '"' then
        (parseStringBody rest).map (fun p => (JValue.str p.1, p.2))
      else if leadsWith (['t', 'r', 'u', 'e']) (c :: rest) then
        some (JValue.jbool true, (c :: rest).drop 4)
      else if leadsWith (['f', 'a', 'l', 's', 'e']) (c :: rest) then
        some (JValue.jbool false, (c :: rest).drop 5)
      else if leadsWith (['n', 'u', 'l', 'l']) (c :: rest) then
        some (JValue.jnull, (c :: rest).drop 4)
      else
        (parseNumberBody (c :: rest)).map (fun p => (JValue.num p.1, p.2))

/-- Members of an object, input already whitespace-skipped and past `{`.
`first` is true when no member has been consumed yet. -/
def parseMembers : Nat → Str → Bool → Option (List (Str × JValue) × Str)
  | 0, _, _ => none
  | fuel + 1, s, first =>
    match s with
    | '\x7d' :: rest => if first then some ([], rest) else none
    | '"' :: rest =>
      match parseStringBody rest with
      | none => none
      | some (key, r1) =>
        match skipWs r1 with
        | ':' :: r2 =>
          match parseValue fuel r2 with
          | none => none
          | some (v, r3) =>
            match skipWs r3 with
            | ',' :: r4 =>
              (parseMembers fuel (skipWs r4) false).map
                (fun p => ((key, v) :: p.1, p.2))
            | '\x7d' :: r4 => some ([(key, v)], r4)
            | _ => none
        | _ => none
    | _ => none

/-- Elements of an array, input already whitespace-skipped and past `[`. -/
def parseElements : Nat → Str → Bool → Option (List JValue × Str)
  | 0, _, _ => none
  | fuel + 1, s, first =>
    match s with
    | ']' :: rest => if first then some ([], rest) else none
    | _ =>
      match parseValue fuel s with
      | none => none
      | some (v, r1) =>
        match skipWs r1 with
        | ',' :: r2 =>
          (parseElements fuel (skipWs r2) false).map (fun p => (v :: p.1, p.2))
        | ']' :: r2 => some ([v], r2)
        | _ =>
          let _ := first
          none

end

/-- Model of `JSON.parse`: one complete JSON value with only trailing
whitespace allowed. -/
def jsonParse (s : Str) : Option JValue :=
  match parseValue (s.length + 1) s with
  | some (v, rest) => if (skipWs rest).isEmpty then some v else none
  | none => none

/-! ## `_extractJSON` (services/aiService, `AIService._extractJSON`) -/

/-- The fence marker `"```json"`. -/
def jsonFenceLit : Str := ['\x60', '\x60', '\x60', 'j', 's', 'o', 'n']

/-- The generic fence marker `"```"`. -/
def fence3Lit : Str := ['\x60', '\x60', '\x60']

/-- The tag distinguishing a JSON fence from a generic one. -/
def jsonTag : Str := ['j', 's', 'o', 'n']

/-- The markdown-fence stripping step of `_extractJSON`, applied to the
already-trimmed response text: content between the first `"```json"` fence
and the following `"```"`, else between the first pair of generic fences,
else the text unchanged.  `split(x)[1]` and `split(x)[0]` are modelled by
`(jsSplit x t).getD 1 []` / `.getD 0 []`; the defaults are unreachable
because each branch is guarded by the corresponding `includes` test. -/
def fenceStrip (t : Str) : Str :=
  if jsIncludes t jsonFenceLit then
    jsTrim ((jsSplit fence3Lit ((jsSplit jsonFenceLit t).getD 1 [])).getD 0 [])
  else if jsIncludes t fence3Lit then
    jsTrim ((jsSplit fence3Lit ((jsSplit fence3Lit t).getD 1 [])).getD 0 [])
  else t

/-- Outcome of `_extractJSON`: a parsed value, the
`'No valid JSON found in AI response'` error, or the JSON-parse error
carrying the first 200 characters of the offending candidate text. -/
inductive ExtractResult (J : Type) where
  | ok : J → ExtractResult J
  | noValidJson : ExtractResult J
  | parseFailure : Str → ExtractResult J

/-- The brace-slicing and parsing step of `_extractJSON`, applied to the
fence-stripped candidate: slice from the first `{` to the last `}`
(failing when either is absent or the last `}` does not come strictly
after the first `{`), then parse the slice, a parse failure carrying the
slice's first 200 characters. -/
def braceSlice {J : Type} (parse : Str → Option J) (t1 : Str) : ExtractResult J :=
  match jsIndexOf '\x7b' t1, jsLastIndexOf '\x7d' t1 with
  | some a, some b =>
    if b ≤ a then ExtractResult.noValidJson
    else
      match parse ((t1.drop a).take (b + 1 - a)) with
      | some v => ExtractResult.ok v
      | none => ExtractResult.parseFailure (((t1.drop a).take (b + 1 - a)).take 200)
  | some _, none => ExtractResult.noValidJson
  | none, _ => ExtractResult.noValidJson

/-- `_extractJSON`, with `JSON.parse` abstracted as `parse`: trim, strip
fences, then slice and parse. -/
def extractJSON {J : Type} (parse : Str → Option J) (responseText : Str) :
    ExtractResult J :=
  braceSlice parse (fenceStrip (jsTrim responseText))

/-- What `_extractJSON` does on a candidate that is already exactly a
brace-delimited serialization: parse it, or report the first 200
characters. Used to state that all three wrapping styles agree. -/
def plainExtract {J : Type} (parse : Str → Option J) (s : Str) :
    ExtractResult J :=
  match parse s with
  | some v => ExtractResult.ok v
  | none => ExtractResult.parseFailure (s.take 200)

/-! ## `_validateResponse` (services/aiService) -/

/-- Last-wins lookup of a key in a parsed object — JavaScript property
access `data[field]`; `field in data` is `(jGet d f).isSome`. -/
def jGet : JObject → Str → Option JValue
  | [], _ => none
  | (k', v) :: rest, k =>
    match jGet rest k with
    | some w => some w
    | none => if k' = k then some v else none

/-- JavaScript property assignment `data[field] = v`. -/
def jSet (d : JObject) (k : Str) (v : JValue) : JObject :=
  if (jGet d k).isSome then
    d.map (fun p => if p.1 = k then (p.1, v) else p)
  else d ++ [(k, v)]

/-- The declared type of a required field in `_validateResponse`
(`'object'` there means array, enforced via `Array.isArray`). -/
inductive FieldKind where
  | fnum : FieldKind
  | fstr : FieldKind
  | farr : FieldKind
deriving DecidableEq

def msKey : Str := ("matchScore").toList
def mskKey : Str := ("missingSkills").toList
def seKey : Str := ("scoreExplanation").toList
def riKey : Str := ("resumeImprovements").toList
def clKey : Str := ("coverLetter").toList
def iqKey : Str := ("interviewQuestions").toList

/-- The `requiredFields` table, in the source's insertion order. -/
def requiredFields : List (Str × FieldKind) :=
  [(msKey, FieldKind.fnum), (mskKey, FieldKind.farr), (seKey, FieldKind.farr),
   (riKey, FieldKind.farr), (clKey, FieldKind.fstr), (iqKey, FieldKind.farr)]

/-- The violations `_validateResponse` can raise (the spec's
`SchemaViolationError`s), each carrying the offending field where the
source message names one. -/
inductive VError where
  | missingField : Str → VError
  | notNumber : Str → VError
  | notString : Str → VError
  | notArray : Str → VError
  | scoreOutOfRange : VError
  | improvementsCount : VError
  | questionsCount : VError
  | explanationCount : VError
deriving DecidableEq

/-- One iteration of the `for (const [field, type] of ...)` loop:
presence check then type check for a single field. -/
def checkField (d : JObject) (f : Str) (k : FieldKind) : Option VError :=
  match jGet d f with
  | none => some (VError.missingField f)
  | some v =>
    match k with
    | FieldKind.fnum =>
      match v with
      | JValue.num _ => none
      | _ => some (VError.notNumber f)
    | FieldKind.fstr =>
      match v with
      | JValue.str _ => none
      | _ => some (VError.notString f)
    | FieldKind.farr =>
      match v with
      | JValue.arr _ => none
      | _ => some (VError.notArray f)

/-- The whole field loop, failing fast on the first per-field violation. -/
def loopErr (d : JObject) : List (Str × FieldKind) → Option VError
  | [] => none
  | (f, k) :: rest =>
    match checkField d f k with
    | some e => some e
    | none => loopErr d rest

/-- `data.matchScore` as a number; the default is unreachable once the
field loop has passed. -/
def scoreVal (d : JObject) : DecNum :=
  match jGet d msKey with
  | some (JValue.num q) => q
  | _ => DecNum.ofInt 0

/-- `Array.isArray(data[f])`. -/
def isArrAt (d : JObject) (f : Str) : Bool :=
  match jGet d f with
  | some (JValue.arr _) => true
  | _ => false

/-- `data[f].length` for an array field; the default is unreachable once
the field loop has passed. -/
def arrLen (d : JObject) (f : Str) : Nat :=
  match jGet d f with
  | some (JValue.arr xs) => xs.length
  | _ => 0

/-- `_validateResponse`: the per-field presence/type loop, then the
`matchScore` range check, then the three cardinality checks, in source
order, failing fast; `none` means the source returns `true`. -/
def validateResponse (d : JObject) : Option VError :=
  match loopErr d requiredFields with
  | some e => some e
  | none =>
    if DecNum.blt (scoreVal d) (DecNum.ofInt 0) ||
        DecNum.blt (DecNum.ofInt 100) (scoreVal d) then some VError.scoreOutOfRange
    else if isArrAt d riKey = false ∨ arrLen d riKey ≠ 3 then
      some VError.improvementsCount
    else if isArrAt d iqKey = false ∨ arrLen d iqKey ≠ 5 then
      some VError.questionsCount
    else if isArrAt d seKey = false ∨ arrLen d seKey < 2 ∨ 3 < arrLen d seKey then
      some VError.explanationCount
    else none

/-- ECMAScript `Math.round`: the integral value closest to `q`, ties
toward `+∞`. -/
def roundJS (q : ℚ) : ℤ := ⌊q + 1 / 2⌋

/-- The post-inference tail of `analyzeResume`: validate, then round
`matchScore` to the nearest integer, then return the analysis. -/
def finalizeAnalysis (d : JObject) : Except VError JObject :=
  match validateResponse d with
  | some e => Except.error e
  | none => Except.ok (jSet d msKey (JValue.num (DecNum.ofInt ((scoreVal d).roundInt))))

/-! ### Rule-list views of the validator (used to settle the ordering claim) -/

/-- First error in a list of rule verdicts. -/
def firstSome {α : Type} : List (Option α) → Option α
  | [] => none
  | some e :: _ => some e
  | none :: rest => firstSome rest

/-- The constraint rules that follow the field loop, in source order. -/
def constraintVerdicts (d : JObject) : List (Option VError) :=
  [if DecNum.blt (scoreVal d) (DecNum.ofInt 0) ||
      DecNum.blt (DecNum.ofInt 100) (scoreVal d) then some VError.scoreOutOfRange
   else none,
   if isArrAt d riKey = false ∨ arrLen d riKey ≠ 3 then some VError.improvementsCount else none,
   if isArrAt d iqKey = false ∨ arrLen d iqKey ≠ 5 then some VError.questionsCount else none,
   if isArrAt d seKey = false ∨ arrLen d seKey < 2 ∨ 3 < arrLen d seKey then
     some VError.explanationCount
   else none]

/-- The rule order the code actually implements: presence+type
interleaved per field, in field order, then the constraint rules. -/
def ruleVerdicts (d : JObject) : List (Option VError) :=
  (requiredFields.map (fun ft => checkField d ft.1 ft.2)) ++ constraintVerdicts d

/-- The rule order asserted by the specification sentence: presence of
every field first, then the type of every field, then the constraint
rules. This definition follows the spec's words, for comparison with
`validateResponse`, which is translated from the source. -/
def specOrderValidate (d : JObject) : Option VError :=
  firstSome
    ((requiredFields.map
        (fun ft => if (jGet d ft.1).isSome then none else some (VError.missingField ft.1))) ++
      (requiredFields.map
        (fun ft =>
          match jGet d ft.1 with
          | none => none
          | some v =>
            match ft.2 with
            | FieldKind.fnum =>
              match v with
              | JValue.num _ => none
              | _ => some (VError.notNumber ft.1)
            | FieldKind.fstr =>
              match v with
              | JValue.str _ => none
              | _ => some (VError.notString ft.1)
            | FieldKind.farr =>
              match v with
              | JValue.arr _ => none
              | _ => some (VError.notArray ft.1))) ++
      constraintVerdicts d)

/-- Top-level string test on a JSON value (used to state that a
non-string array element passes validation). -/
def isStringV : JValue → Bool
  | JValue.str _ => true
  | _ => false

/-- A concrete well-formed analysis object with the spec's example score
`87.6`, used to instantiate the validation theorems. -/
def sampleAnalysis : JObject :=
  [(msKey, JValue.num ⟨876, -1⟩),
   (mskKey, JValue.arr []),
   (seKey, JValue.arr [JValue.str [], JValue.str []]),
   (riKey, JValue.arr [JValue.str [], JValue.str [], JValue.str []]),
   (clKey, JValue.str ("Dear team").toList),
   (iqKey, JValue.arr [JValue.str [], JValue.str [], JValue.str [],
     JValue.str [], JValue.str []])]

/-! ## Model resolution (`AIService._initializeModel`) -/

/-- One entry of the capability listing returned by
`listAvailableModels`; `supportedGenerationMethods` is optional because
the source reads it through optional chaining. -/
structure ModelInfo where
  name : Str
  supportedGenerationMethods : Option (List Str)

def genContentLit : Str := ("generateContent").toList
def flashLit : Str := ("flash").toList
def proLit : Str := ("pro").toList
def modelsSlashLit : Str := ("models/").toList

/-- `m.supportedGenerationMethods?.includes('generateContent')`. -/
def supportsGen (m : ModelInfo) : Bool :=
  match m.supportedGenerationMethods with
  | some ops => ops.any (fun o => o = genContentLit)
  | none => false

/-- The eligible identifiers: listing entries supporting
`generateContent`, with the first `'models/'` occurrence dropped. -/
def eligibleIds (models : List ModelInfo) : List Str :=
  (models.filter supportsGen).map (fun m => jsReplaceFirst m.name modelsSlashLit [])

/-- JavaScript `x || y` where `x` is a string-or-undefined: the empty
string is falsy. -/
def jsStrOr (a : Option Str) (b : Str) : Str :=
  match a with
  | some s => if s.isEmpty then b else s
  | none => b

/-- The preference chain
`find(flash) || find(pro) || supportedModels[0]`. -/
def selectPreferred (supported : List Str) : Str :=
  jsStrOr (supported.find? (fun m => jsIncludes m flashLit))
    (jsStrOr (supported.find? (fun m => jsIncludes m proLit)) (supported.headD []))

/-- The listing branch of `_initializeModel`: `some` exactly when the
eligible set is non-empty. -/
def selectModel (models : List ModelInfo) : Option Str :=
  let supported := eligibleIds models
  if supported.isEmpty then none else some (selectPreferred supported)

/-- The static fallback list `modelNamesToTry`, in source order. -/
def fallbackNames : List Str :=
  [("gemini-pro").toList, ("gemini-1.5-flash").toList, ("gemini-1.5-pro").toList,
   ("gemini-1.5-flash-latest").toList, ("gemini-1.5-pro-latest").toList,
   ("gemini-2.0-flash-exp").toList, ("models/gemini-pro").toList,
   ("models/gemini-1.5-flash").toList, ("models/gemini-1.5-pro").toList]

/-- The mutable fields of the `AIService` instance that resolution
touches: the pinned name and the constructed model handle (recorded as
the name it was constructed with). -/
structure AIState where
  modelName : Option Str
  model : Option Str
deriving DecidableEq

/-- The environment of one resolution: what the capability listing
returns (`listAvailableModels` resolves to `[]` on any failure and never
rejects), and whether `getGenerativeModel` succeeds for a given name. -/
structure ResolveEnv where
  listing : List ModelInfo
  constructOk : Str → Bool

/-- Failures `_initializeModel` can throw. -/
inductive RErr where
  | constructFailed : Str → RErr
  | noModelFound : RErr
deriving DecidableEq

/-- The `for (const modelName of modelNamesToTry)` loop: first name the
client library accepts wins; construction throws are caught and skipped. -/
def tryFallback (env : ResolveEnv) (st : AIState) : List Str → AIState × Except RErr Unit
  | [] => (st, Except.error RErr.noModelFound)
  | n :: rest =>
    if env.constructOk n then
      ({ modelName := some n, model := some n }, Except.ok ())
    else tryFallback env st rest

/-- `_initializeModel`, returning the mutated state, the thrown error if
any, and the number of capability-listing network probes performed.
With an explicit name set, construction is tried and a throw is caught
(falling through to the static list, the listing being skipped because
`modelName` is set). Without one, the listing is probed once; a
construction throw in the listing branch propagates with `modelName`
already mutated. -/
def initializeModel (env : ResolveEnv) (st : AIState) :
    AIState × Except RErr Unit × Nat :=
  match st.modelName with
  | some name =>
    if env.constructOk name then ({ st with model := some name }, Except.ok (), 0)
    else
      let fb := tryFallback env st fallbackNames
      (fb.1, fb.2, 0)
  | none =>
    match selectModel env.listing with
    | some chosen =>
      if env.constructOk chosen then
        ({ modelName := some chosen, model := some chosen }, Except.ok (), 1)
      else ({ modelName := some chosen, model := st.model },
            Except.error (RErr.constructFailed chosen), 1)
    | none =>
      let fb := tryFallback env st fallbackNames
      (fb.1, fb.2, 1)

/-- The guard at the top of `analyzeResume`:
`if (!this.model) await this._initializeModel()`. -/
def ensureModel (env : ResolveEnv) (st : AIState) :
    AIState × Except RErr Unit × Nat :=
  match st.model with
  | some _ => (st, Except.ok (), 0)
  | none => initializeModel env st

/-! ## `analyzeResume` orchestration -/

def apiKeyTok : Str := ("API_KEY").toList
def quotaTok : Str := ("quota").toList
def rateLimitTok : Str := ("rate limit").toList
def notFoundTok : Str := ("not found").toList
def fourOhFourTok : Str := ("404").toList

/-- A message the `catch` classifier routes to the not-found retry:
it contains `'404'` or `'not found'` and none of the earlier-checked
markers (`'API_KEY'`, `'quota'`, `'rate limit'`), which take precedence. -/
def notFoundClass (msg : Str) : Bool :=
  (jsIncludes msg fourOhFourTok || jsIncludes msg notFoundTok) &&
    !(jsIncludes msg apiKeyTok) && !(jsIncludes msg quotaTok) &&
    !(jsIncludes msg rateLimitTok)

def apiKeyErrMsg : Str := ("Invalid or missing Gemini API key. Check your .env file.").toList
def rateLimitErrMsg : Str := ("API rate limit exceeded. Please try again later.").toList
def aiFailedMsg (m : Str) : Str := ("AI analysis failed: ").toList ++ m
def emptyResumeMsg : Str := ("Resume text cannot be empty").toList
def emptyJobMsg : Str := ("Job description cannot be empty").toList
def noValidJsonMsg : Str := ("No valid JSON found in AI response").toList

/-- Message of the JSON-parse failure; the engine-specific
`parseError.message` fragment is elided, the 200-character snippet of the
offending candidate is the part the claims speak about. -/
def parseFailMsg (snip : Str) : Str :=
  ("Failed to parse JSON: ").toList ++ (". Response: ").toList ++ snip

def noModelFoundMsg : Str :=
  ("Could not find an available Gemini model. Please check your API key and ensure it has access to Gemini models. You can also set GEMINI_MODEL in your .env file to a specific model name.").toList

/-- Message of a throw escaping `getGenerativeModel`; the text is
library-specific, only its identity matters here. -/
def rerrMsg : RErr → Str
  | RErr.constructFailed n => ("getGenerativeModel failed for ").toList ++ n
  | RErr.noModelFound => noModelFoundMsg

/-- The messages `_validateResponse` throws, verbatim from the source. -/
def errMsgV : VError → Str
  | VError.missingField f => ("Missing required field: ").toList ++ f
  | VError.notNumber f => ("Field ").toList ++ f ++ (" must be a number").toList
  | VError.notString f => ("Field ").toList ++ f ++ (" must be a string").toList
  | VError.notArray f => ("Field ").toList ++ f ++ (" must be an array").toList
  | VError.scoreOutOfRange => ("matchScore must be between 0 and 100").toList
  | VError.improvementsCount => ("resumeImprovements must contain exactly 3 items").toList
  | VError.questionsCount => ("interviewQuestions must contain exactly 5 items").toList
  | VError.explanationCount => ("scoreExplanation must contain 2-3 items").toList

def joinComma : List Str → Str
  | [] => []
  | [x] => x
  | x :: y :: rest => x ++ (", ").toList ++ joinComma (y :: rest)

def modelListStr (listing : List ModelInfo) : Str :=
  if listing.isEmpty then ("Unable to list models. Check your API key.").toList
  else joinComma (listing.map (fun m => m.name))

def optNameStr : Option Str → Str
  | some n => n
  | none => ("null").toList

/-- The detailed error thrown when the not-found retry also fails,
listing the available model identifiers where obtainable. -/
def diagnosticMsg (modelName : Option Str) (listing : List ModelInfo) (orig : Str) : Str :=
  ("Model \"").toList ++ optNameStr modelName ++
    ("\" is not available. Available models: ").toList ++ modelListStr listing ++
    (". Try setting GEMINI_MODEL in your .env file. Original error: ").toList ++ orig

def promptHead : Str :=
  ("You are an experienced hiring manager and technical recruiter with 15+ years of experience evaluating candidates. Your task is to analyze a resume against a job description with strict, objective criteria.\n\nRESUME TEXT:\n").toList

def promptMid : Str := ("\n\nJOB DESCRIPTION:\n").toList

def promptTail : Str :=
  ("\n\nEVALUATION CRITERIA:\n1. Match Score (0-100): Score strictly based on:\n   - Required skills match (40% weight)\n   - Relevant experience alignment (30% weight)\n   - Education/certifications match (15% weight)\n   - Keywords and terminology alignment (15% weight)\n   Be harsh but fair. A perfect match is 90-100, good match is 70-89, moderate is 50-69, poor is below 50.\n\n2. Missing Skills: List ONLY skills explicitly required in the job description but absent from the resume. Be specific (e.g., \"React.js\" not \"JavaScript frameworks\").\n\n3. Score Explanation: Provide 2-3 concise bullet points explaining WHY the score is what it is. Focus on specific gaps or strengths.\n\n4. Resume Improvements: Provide exactly 3 concrete, actionable suggestions to improve the resume for THIS specific job. Each suggestion should be specific and implementable.\n\n5. Cover Letter: Generate a professional, personalized cover letter (3-4 paragraphs) that highlights relevant experience and addresses key job requirements.\n\n6. Interview Questions: Generate exactly 5 role-specific interview questions that a hiring manager would ask based on the job requirements and candidate\x27s background.\n\nRESPONSE FORMAT:\nReturn ONLY valid JSON. No markdown, no code blocks, no explanations, no additional text. The JSON must be parseable.\n\n\x7b\n  \"matchScore\": <integer 0-100>,\n  \"missingSkills\": [<array of strings>],\n  \"scoreExplanation\": [<array of 2-3 strings explaining the score>],\n  \"resumeImprovements\": [<array of exactly 3 strings>],\n  \"coverLetter\": \"<string>\",\n  \"interviewQuestions\": [<array of exactly 5 strings>]\n\x7d").toList

/-- `_buildAnalysisPrompt`. -/
def buildAnalysisPrompt (resume jd : Str) : Str :=
  promptHead ++ resume ++ promptMid ++ jd ++ promptTail

def truncMarker : Str := ("... [truncated]").toList

/-- First-attempt input truncation (`maxLength = 15000`). -/
def truncateInput (s : Str) : Str :=
  if 15000 < s.length then s.take 15000 ++ truncMarker else s

/-- The truncation expression inlined at the retry site; textually the
same computation as `truncateInput`. -/
def retryTruncate (s : Str) : Str :=
  if 15000 < s.length then s.take 15000 ++ truncMarker else s

/-- Extraction, validation and rounding of one raw response text, with
the message each throw would carry into the `catch` classifier. A
non-object extraction is impossible (the candidate starts with a brace,
see `extractJSON_ok_obj`); that dead branch surfaces as a generic
failure, as the `in` operator's `TypeError` would. -/
def pipeline (text : Str) : Except Str JObject :=
  match extractJSON jsonParse text with
  | ExtractResult.noValidJson => Except.error noValidJsonMsg
  | ExtractResult.parseFailure snip => Except.error (parseFailMsg snip)
  | ExtractResult.ok v =>
    match v with
    | JValue.obj d =>
      match validateResponse d with
      | some e => Except.error (errMsgV e)
      | none => Except.ok (jSet d msKey (JValue.num (DecNum.ofInt ((scoreVal d).roundInt))))
    | _ => Except.error (aiFailedMsg [])

/-- The world one `analyzeResume` call runs against: the resolution
environment (shared by the initial resolve, the retry resolve and the
diagnostic listing) and the outcomes of the at-most-two
`generateContent` invocations. -/
structure InferEnv where
  renv : ResolveEnv
  outcome1 : Except Str Str
  outcome2 : Except Str Str

/-- Observable outcome of one `analyzeResume` call: final state, result
or thrown message, number of `generateContent` invocations, the prompts
sent, and the number of capability-listing network probes. -/
structure AnalyzeOut where
  state : AIState
  result : Except Str JObject
  inferCalls : Nat
  prompts : List Str
  probes : Nat

/-- The `catch` block of `analyzeResume`: classify the message by
substring, in source order — API-key, then quota/rate-limit, then
404/not-found (which invalidates the cached model, re-resolves and
performs exactly one more inference+pipeline cycle, any further failure
becoming the diagnostic error after one more listing probe) — else wrap
generically. -/
def handleCatch (env : InferEnv) (st : AIState) (msg : Str) (resume jd : Str)
    (calls : Nat) (prompts : List Str) (probes : Nat) : AnalyzeOut :=
  if jsIncludes msg apiKeyTok then
    ⟨st, Except.error apiKeyErrMsg, calls, prompts, probes⟩
  else if jsIncludes msg quotaTok || jsIncludes msg rateLimitTok then
    ⟨st, Except.error rateLimitErrMsg, calls, prompts, probes⟩
  else if jsIncludes msg fourOhFourTok || jsIncludes msg notFoundTok then
    let r := initializeModel env.renv { st with model := none }
    match r.2.1 with
    | Except.error _ =>
      ⟨r.1, Except.error (diagnosticMsg r.1.modelName env.renv.listing msg),
        calls, prompts, probes + r.2.2 + 1⟩
    | Except.ok _ =>
      let prompt2 := buildAnalysisPrompt (retryTruncate resume) (retryTruncate jd)
      match env.outcome2 with
      | Except.error _ =>
        ⟨r.1, Except.error (diagnosticMsg r.1.modelName env.renv.listing msg),
          calls + 1, prompts ++ [prompt2], probes + r.2.2 + 1⟩
      | Except.ok text2 =>
        match pipeline text2 with
        | Except.ok out =>
          ⟨r.1, Except.ok out, calls + 1, prompts ++ [prompt2], probes + r.2.2⟩
        | Except.error _ =>
          ⟨r.1, Except.error (diagnosticMsg r.1.modelName env.renv.listing msg),
            calls + 1, prompts ++ [prompt2], probes + r.2.2 + 1⟩
  else ⟨st, Except.error (aiFailedMsg msg), calls, prompts, probes⟩

/-- `analyzeResume`: ensure a model (outside the `try`, so resolution
failures propagate unclassified), validate inputs, truncate, build the
prompt, invoke inference, run the extraction/validation pipeline; every
throw inside the `try` goes through the `catch` classifier. -/
def analyzeResume (env : InferEnv) (st0 : AIState) (resume jd : Str) : AnalyzeOut :=
  let e0 := ensureModel env.renv st0
  match e0.2.1 with
  | Except.error er => ⟨e0.1, Except.error (rerrMsg er), 0, [], e0.2.2⟩
  | Except.ok _ =>
    if (jsTrim resume).isEmpty then
      handleCatch env e0.1 emptyResumeMsg resume jd 0 [] e0.2.2
    else if (jsTrim jd).isEmpty then
      handleCatch env e0.1 emptyJobMsg resume jd 0 [] e0.2.2
    else
      let prompt := buildAnalysisPrompt (truncateInput resume) (truncateInput jd)
      match env.outcome1 with
      | Except.error m => handleCatch env e0.1 m resume jd 1 [prompt] e0.2.2
      | Except.ok text =>
        match pipeline text with
        | Except.ok out => ⟨e0.1, Except.ok out, 1, [prompt], e0.2.2⟩
        | Except.error m => handleCatch env e0.1 m resume jd 1 [prompt] e0.2.2

/-! ## Server routes (`server.js`) and `FirebaseService.saveAnalysis` -/

structure UserInfo where
  uid : Str
  email : Str

/-- Responses of `POST /api/analyze`. -/
inductive AnalyzeResp where
  | badRequest : Str → Str → AnalyzeResp
  | okResp : JObject → Option Str → Bool → AnalyzeResp
  | failed : Str → AnalyzeResp

/-- The `POST /api/analyze` handler. The second component counts writes
to the document store performed by the handler: the route never
references it, so the count is zero on every path by construction —
mirroring that `server.js` lines 155–207 never call `firebaseService`. -/
def handleAnalyze (hasFile : Bool) (jobDescription : Option Str)
    (extractedText : Except Str Str) (ai : Except Str JObject) :
    AnalyzeResp × Nat :=
  if hasFile = false then
    (AnalyzeResp.badRequest (("No resume file uploaded").toList)
      (("Please upload a PDF resume file").toList), 0)
  else
    match jobDescription with
    | none =>
      (AnalyzeResp.badRequest (("Job description required").toList)
        (("Please provide a job description").toList), 0)
    | some jd =>
      if (jsTrim jd).isEmpty then
        (AnalyzeResp.badRequest (("Job description required").toList)
          (("Please provide a job description").toList), 0)
      else
        match extractedText with
        | Except.error e => (AnalyzeResp.failed e, 0)
        | Except.ok _ =>
          match ai with
          | Except.error e => (AnalyzeResp.failed e, 0)
          | Except.ok analysis => (AnalyzeResp.okResp analysis none false, 0)

/-- Result object of `FirebaseService.saveAnalysis`. -/
structure SaveResult where
  success : Bool
  id : Option Str
  errorMsg : Option Str
deriving DecidableEq

/-- `FirebaseService.saveAnalysis`: refuses when the service is not
initialized or no user ID is available (JavaScript `!userId`, so `null`
and the empty string both refuse), in both cases without contacting the
store; otherwise performs exactly one store write whose outcome is
`dbAdd`. The second component counts store contacts. -/
def saveAnalysisSvc (initialized : Bool) (userId : Option Str)
    (dbAdd : Except Str Str) : SaveResult × Nat :=
  if initialized = false then
    (⟨false, none, some (("Firebase not initialized").toList)⟩, 0)
  else
    match userId with
    | none => (⟨false, none, some (("User not logged in").toList)⟩, 0)
    | some uid =>
      if uid.isEmpty then
        (⟨false, none, some (("User not logged in").toList)⟩, 0)
      else
        match dbAdd with
        | Except.ok docId => (⟨true, some docId, none⟩, 1)
        | Except.error e => (⟨false, none, some e⟩, 1)

/-- Responses of `POST /api/save-analysis`. -/
inductive SaveResp where
  | unauthorized : Str → SaveResp
  | badRequest : Str → SaveResp
  | okSaved : Option Str → Bool → SaveResp
  | failed : Str → SaveResp

/-- `authHeader.replace('Bearer ', '')`. -/
def stripBearer (h : Str) : Str := jsReplaceFirst h (("Bearer ").toList) []

/-- The `POST /api/save-analysis` handler: require an authorization
header, verify the token, validate the body, then delegate to
`saveAnalysisSvc` with the verified user's ID. The body payload itself
(analysis merged with the truncated job description) is irrelevant to
the persistence claims and kept abstract. The second component counts
store contacts. -/
def handleSaveAnalysis (authHeader : Option Str) (verify : Str → Option UserInfo)
    (body : Option (JObject × Str)) (initialized : Bool) (dbAdd : Except Str Str) :
    SaveResp × Nat :=
  match authHeader with
  | none => (SaveResp.unauthorized (("Authentication required to save results").toList), 0)
  | some h =>
    match verify (stripBearer h) with
    | none =>
      (SaveResp.unauthorized (("Invalid or expired session. Please log in again.").toList), 0)
    | some u =>
      match body with
      | none => (SaveResp.badRequest (("Missing analysis data or job description").toList), 0)
      | some _ =>
        let r := saveAnalysisSvc initialized (some u.uid) dbAdd
        if r.1.success then (SaveResp.okSaved r.1.id true, r.2)
        else
          (SaveResp.failed
            (("Database save failed: ").toList ++
              (match r.1.errorMsg with
               | some m => m
               | none => [])), r.2)

/-! ## Concrete scenarios for the orchestration and route claims -/

/-- A failure message containing the not-found token but also the
API-key token, which the `catch` classifier checks first. -/
def cexMsg9 : Str := ("API_KEY not found").toList

/-- A not-found failure message matching only the 404 token. -/
def wMsg9 : Str := ("404 model is unavailable").toList

def wModel9 : Str := ("gemini-1.5-flash").toList

/-- A service state whose model cache is already populated. -/
def wSt9 : AIState := ⟨some wModel9, some wModel9⟩

/-- World for the classification counterexample: the one inference
attempt fails with `cexMsg9`. -/
def cexEnv9 : InferEnv := ⟨⟨[], fun _ => true⟩, Except.error cexMsg9, Except.error []⟩

/-- World for the retry witness: first attempt fails with a pure
not-found message, re-resolution succeeds, second attempt fails too. -/
def wEnv9 : InferEnv :=
  ⟨⟨[⟨("models/gemini-1.5-flash").toList, some [("generateContent").toList]⟩],
      fun _ => true⟩,
    Except.error wMsg9, Except.error (("boom").toList)⟩

/-! ## Lemmas about the string primitives -/

theorem leadsWith_append {pat s : Str} (t : Str) (h : leadsWith pat s = true) :
    leadsWith pat (s ++ t) = true := by
  induction pat generalizing s with
  | nil => simp [leadsWith]
  | cons c cs ih =>
    cases s with
    | nil => simp [leadsWith] at h
    | cons d ds =>
      simp only [leadsWith, Bool.and_eq_true] at h ⊢
      exact ⟨h.1, ih h.2⟩

theorem leadsWith_self (pat t : Str) : leadsWith pat (pat ++ t) = true := by
  induction pat with
  | nil => simp [leadsWith]
  | cons c cs ih => simp [leadsWith, ih]

theorem leadsWith_exists {pat s : Str} (h : leadsWith pat s = true) :
    ∃ r, s = pat ++ r := by
  induction pat generalizing s with
  | nil => exact ⟨s, rfl⟩
  | cons c cs ih =>
    cases s with
    | nil => simp [leadsWith] at h
    | cons d ds =>
      simp only [leadsWith, Bool.and_eq_true, decide_eq_true_eq] at h
      obtain ⟨r, hr⟩ := ih h.2
      exact ⟨r, by simp [← h.1, hr]⟩

theorem leadsWith_head_false {c : Char} {cs : Str} {s : Str} (h : c ∉ s) (hs : s ≠ []) :
    leadsWith (c :: cs) s = false := by
  cases s with
  | nil => exact absurd rfl hs
  | cons d ds =>
    have : ¬(c = d) := fun he => h (by simp [he])
    simp [leadsWith, this]

theorem findSubstr_none_of_not_mem {c : Char} {cs s : Str} (h : c ∉ s) :
    findSubstr (c :: cs) s = none := by
  induction s with
  | nil => simp [findSubstr, leadsWith]
  | cons d ds ih =>
    have h1 : ¬(c = d) := fun he => h (by simp [he])
    have h2 : c ∉ ds := fun he => h (List.mem_cons_of_mem _ he)
    simp [findSubstr, leadsWith, h1, ih h2]

theorem findSubstr_append_left {c : Char} {cs a b : Str} (ha : c ∉ a)
    (hb : leadsWith (c :: cs) b = true) :
    findSubstr (c :: cs) (a ++ b) = some a.length := by
  induction a with
  | nil => cases b with
    | nil => simp [leadsWith] at hb
    | cons x xs => simpa [findSubstr] using hb
  | cons d ds ih =>
    have h1 : ¬(c = d) := fun he => ha (by simp [he])
    have h2 : c ∉ ds := fun he => ha (List.mem_cons_of_mem _ he)
    have hne : ds ++ b ≠ [] := by
      cases b with
      | nil => simp [leadsWith] at hb
      | cons x xs => simp
    have : leadsWith (c :: cs) (d :: (ds ++ b)) = false := by
      simp [leadsWith, h1]
    simp [findSubstr, this, ih h2]

theorem jsIncludes_of_append {c : Char} {cs a b : Str} (ha : c ∉ a)
    (hb : leadsWith (c :: cs) b = true) :
    jsIncludes (a ++ b) (c :: cs) = true := by
  simp [jsIncludes, findSubstr_append_left ha hb]

theorem jsIncludes_false_of_not_mem {c : Char} {cs s : Str} (h : c ∉ s) :
    jsIncludes s (c :: cs) = false := by
  simp [jsIncludes, findSubstr_none_of_not_mem h]

theorem findSubstr_some_sub_length {sep s : Str} {i : Nat} (hsep : sep ≠ [])
    (h : findSubstr sep s = some i) :
    s ≠ [] ∧ s.length - (i + sep.length) < s.length := by
  constructor
  · intro he
    subst he
    cases sep with
    | nil => exact hsep rfl
    | cons c cs => simp [findSubstr, leadsWith] at h
  · cases s with
    | nil =>
      cases sep with
      | nil => exact absurd rfl hsep
      | cons c cs => simp [findSubstr, leadsWith] at h
    | cons d ds =>
      have : 1 ≤ sep.length := by
        cases sep with
        | nil => exact absurd rfl hsep
        | cons c cs => simp
      simp only [List.length_cons]
      omega

theorem jsSplitF_succ (sep : Str) (fuel : Nat) (s : Str) :
    jsSplitF sep (fuel + 1) s =
      match findSubstr sep s with
      | none => [s]
      | some i => s.take i :: jsSplitF sep fuel (s.drop (i + sep.length)) := rfl

theorem jsSplitF_fuel_irrel {sep : Str} (hsep : sep ≠ []) :
    ∀ fuel1 fuel2 s, s.length < fuel1 → s.length < fuel2 →
      jsSplitF sep fuel1 s = jsSplitF sep fuel2 s := by
  intro fuel1
  induction fuel1 with
  | zero => intro fuel2 s h1 _; omega
  | succ f ih =>
    intro fuel2 s h1 h2
    cases fuel2 with
    | zero => omega
    | succ g =>
      cases hf : findSubstr sep s with
      | none => simp [jsSplitF_succ, hf]
      | some i =>
        have hlt := (findSubstr_some_sub_length hsep hf).2
        have hd : (s.drop (i + sep.length)).length < s.length := by
          simpa using hlt
        simp only [jsSplitF_succ, hf]
        rw [ih g (s.drop (i + sep.length)) (by omega) (by omega)]

theorem jsSplit_of_none {sep s : Str} (h : findSubstr sep s = none) :
    jsSplit sep s = [s] := by
  simp [jsSplit, jsSplitF_succ, h]

theorem jsSplit_of_some {sep s : Str} {i : Nat} (hsep : sep ≠ [])
    (h : findSubstr sep s = some i) :
    jsSplit sep s = s.take i :: jsSplit sep (s.drop (i + sep.length)) := by
  have hlt := (findSubstr_some_sub_length hsep h).2
  have hd : (s.drop (i + sep.length)).length < s.length := by
    simpa using hlt
  have key : jsSplitF sep s.length (s.drop (i + sep.length)) =
      jsSplitF sep ((s.drop (i + sep.length)).length + 1) (s.drop (i + sep.length)) :=
    jsSplitF_fuel_irrel hsep _ _ _ (by omega) (by omega)
  calc jsSplit sep s
      = s.take i :: jsSplitF sep s.length (s.drop (i + sep.length)) := by
        simp only [jsSplit, jsSplitF_succ, h]
    _ = s.take i :: jsSplit sep (s.drop (i + sep.length)) := by rw [key]; rfl

theorem mem_of_mem_dropWhile {p : Char → Bool} {c : Char} :
    ∀ {s : Str}, c ∈ s.dropWhile p → c ∈ s := by
  intro s h
  induction s with
  | nil => simpa using h
  | cons d ds ih =>
    by_cases hp : p d = true
    · simp only [List.dropWhile_cons, hp, if_true] at h
      exact List.mem_cons_of_mem _ (ih h)
    · simp only [List.dropWhile_cons, hp] at h
      simpa using h

theorem mem_of_mem_jsTrim {c : Char} {s : Str} (h : c ∈ jsTrim s) : c ∈ s := by
  unfold jsTrim at h
  rw [List.mem_reverse] at h
  have h2 := mem_of_mem_dropWhile h
  rw [List.mem_reverse] at h2
  exact mem_of_mem_dropWhile h2

theorem dropWhile_append_all {p : Char → Bool} {a : Str} (b : Str)
    (h : ∀ c ∈ a, p c = true) : (a ++ b).dropWhile p = b.dropWhile p := by
  induction a with
  | nil => rfl
  | cons d ds ih =>
    have hd : p d = true := h d (by simp)
    simp only [List.cons_append, List.dropWhile_cons, hd, if_true]
    exact ih (fun c hc => h c (List.mem_cons_of_mem _ hc))

theorem dropWhile_append_stop {p : Char → Bool} {x : Char} (a y : Str)
    (hx : p x = false) :
    (a ++ x :: y).dropWhile p = a.dropWhile p ++ x :: y := by
  induction a with
  | nil => simp [List.dropWhile_cons, hx]
  | cons d ds ih =>
    by_cases hd : p d = true
    · simp only [List.cons_append, List.dropWhile_cons, hd, if_true]
      exact ih
    · simp only [List.cons_append, List.dropWhile_cons, hd]
      simp

theorem dropWhile_all_nil {p : Char → Bool} {a : Str}
    (h : ∀ c ∈ a, p c = true) : a.dropWhile p = [] := by
  induction a with
  | nil => rfl
  | cons d ds ih =>
    simp only [List.dropWhile_cons, h d (by simp), if_true]
    exact ih (fun c hc => h c (List.mem_cons_of_mem _ hc))

theorem jsTrim_decomp (x y : Char) (p1 p2 core t t' : Str)
    (hcx : core = x :: t) (hcy : core = t' ++ [y])
    (hx : wsChar x = false) (hy : wsChar y = false) :
    jsTrim (p1 ++ core ++ p2) =
      p1.dropWhile wsChar ++ core ++ (p2.reverse.dropWhile wsChar).reverse := by
  unfold jsTrim
  have step1 : (p1 ++ core ++ p2).dropWhile wsChar =
      p1.dropWhile wsChar ++ core ++ p2 := by
    rw [hcx]
    rw [List.append_assoc, List.cons_append, dropWhile_append_stop _ _ hx]
    simp [List.append_assoc]
  rw [step1]
  have step2 : (p1.dropWhile wsChar ++ core ++ p2).reverse =
      p2.reverse ++ core.reverse ++ (p1.dropWhile wsChar).reverse := by
    simp [List.reverse_append, List.append_assoc]
  rw [step2]
  have hcrev : core.reverse = y :: t'.reverse := by
    rw [hcy]; simp
  have step3 : (p2.reverse ++ core.reverse ++ (p1.dropWhile wsChar).reverse).dropWhile wsChar =
      p2.reverse.dropWhile wsChar ++ core.reverse ++ (p1.dropWhile wsChar).reverse := by
    rw [hcrev]
    rw [List.append_assoc, List.cons_append, dropWhile_append_stop _ _ hy]
    simp [List.append_assoc]
  rw [step3]
  simp [List.reverse_append, List.append_assoc]

theorem jsIndexOf_of_not_mem {c : Char} {a : Str} (h : c ∉ a) :
    jsIndexOf c a = none := by
  induction a with
  | nil => rfl
  | cons d ds ih =>
    have h1 : ¬(d = c) := fun he => h (by simp [he])
    have h2 : c ∉ ds := fun he => h (List.mem_cons_of_mem _ he)
    simp [jsIndexOf, h1, ih h2]

theorem jsIndexOf_append_of_not_mem {c : Char} {a : Str} (b : Str) (h : c ∉ a) :
    jsIndexOf c (a ++ b) = (jsIndexOf c b).map (· + a.length) := by
  induction a with
  | nil =>
    cases hb : jsIndexOf c b with
    | none => simp [hb]
    | some i => simp [hb]
  | cons d ds ih =>
    have h1 : ¬(d = c) := fun he => h (by simp [he])
    have h2 : c ∉ ds := fun he => h (List.mem_cons_of_mem _ he)
    have step : jsIndexOf c ((d :: ds) ++ b) = (jsIndexOf c (ds ++ b)).map (· + 1) := by
      simp [jsIndexOf, h1]
    rw [step, ih h2]
    cases hb : jsIndexOf c b with
    | none => rfl
    | some i =>
      show some (i + ds.length + 1) = some (i + (d :: ds).length)
      simp only [List.length_cons, Option.some.injEq]
      omega

theorem jsLastIndexOf_append (c : Char) (a b : Str) :
    jsLastIndexOf c (a ++ b) =
      match jsLastIndexOf c b with
      | some j => some (j + a.length)
      | none => jsLastIndexOf c a := by
  induction a with
  | nil =>
    cases hb : jsLastIndexOf c b with
    | none => simp [hb, jsLastIndexOf]
    | some j => simp [hb]
  | cons d ds ih =>
    cases hb : jsLastIndexOf c b with
    | some j =>
      simp only [hb] at ih
      simp only [hb, List.cons_append, jsLastIndexOf, List.append_eq, ih,
        List.length_cons, Option.some.injEq]
      omega
    | none =>
      simp only [hb] at ih
      simp only [hb, List.cons_append, jsLastIndexOf, List.append_eq, ih]

theorem jsLastIndexOf_of_not_mem {c : Char} {a : Str} (h : c ∉ a) :
    jsLastIndexOf c a = none := by
  induction a with
  | nil => rfl
  | cons d ds ih =>
    have h1 : ¬(d = c) := fun he => h (by simp [he])
    have h2 : c ∉ ds := fun he => h (List.mem_cons_of_mem _ he)
    simp [jsLastIndexOf, ih h2, h1]

theorem jsIndexOf_some_head {c : Char} :
    ∀ {s : Str} {a : Nat}, jsIndexOf c s = some a → ∃ r, s.drop a = c :: r := by
  intro s
  induction s with
  | nil => intro a h; simp [jsIndexOf] at h
  | cons d ds ih =>
    intro a h
    by_cases hd : d = c
    · simp only [jsIndexOf, hd, if_true] at h
      cases h
      exact ⟨ds, by simp [hd]⟩
    · simp only [jsIndexOf, hd, if_false] at h
      cases hi : jsIndexOf c ds with
      | none => rw [hi] at h; simp at h
      | some i =>
        rw [hi] at h
        have ha : i + 1 = a := by simpa using h
        obtain ⟨r, hr⟩ := ih hi
        refine ⟨r, ?_⟩
        rw [← ha, List.drop_succ_cons]
        exact hr

theorem ws_ne_backtick {c : Char} (h : wsChar c = true) : c ≠ '\x60' := by
  intro he
  subst he
  simp [wsChar] at h

theorem ws_ne_brace {c : Char} (h : wsChar c = true) : c ≠ '\x7b' := by
  intro he
  subst he
  simp [wsChar] at h

theorem ws_ne_cbrace {c : Char} (h : wsChar c = true) : c ≠ '\x7d' := by
  intro he
  subst he
  simp [wsChar] at h

theorem not_mem_of_all_ws {w : Str} (hw : ∀ c ∈ w, wsChar c = true) :
    '\x60' ∉ w := fun hm => ws_ne_backtick (hw _ hm) rfl

/-- `leadsWith` starting with a backtick fails on a backtick-free string. -/
theorem leadsWith_bt_false {x : Str} {s : Str} (h : '\x60' ∉ s) :
    leadsWith ('\x60' :: x) s = false := by
  cases s with
  | nil => rfl
  | cons d ds =>
    have : ¬('\x60' = d) := fun he => h (by simp [← he])
    simp [leadsWith, this]

/-- No `"```json"` occurrence in `W ++ "```" ++ P2` when `W` and `P2` are
backtick-free and `P2` does not begin with `"json"`. -/
theorem findSubstr_jf_none {W P2 : Str} (hW : '\x60' ∉ W) (hP : '\x60' ∉ P2)
    (hj : leadsWith jsonTag P2 = false) :
    findSubstr jsonFenceLit (W ++ (fence3Lit ++ P2)) = none := by
  induction W with
  | nil =>
    show findSubstr jsonFenceLit ('\x60' :: '\x60' :: '\x60' :: P2) = none
    have l0 : leadsWith jsonFenceLit ('\x60' :: '\x60' :: '\x60' :: P2) = false := by
      simp only [jsonFenceLit, leadsWith, decide_eq_true_eq]
      simpa [jsonTag, leadsWith] using hj
    have l1 : leadsWith jsonFenceLit ('\x60' :: '\x60' :: P2) = false := by
      simp only [jsonFenceLit, leadsWith, decide_eq_true_eq]
      simp [leadsWith_bt_false hP]
    have l2 : leadsWith jsonFenceLit ('\x60' :: P2) = false := by
      simp only [jsonFenceLit, leadsWith, decide_eq_true_eq]
      simp [leadsWith_bt_false hP]
    have l3 : findSubstr jsonFenceLit P2 = none := by
      have he : jsonFenceLit = '\x60' :: ['\x60', '\x60', 'j', 's', 'o', 'n'] := rfl
      rw [he]
      exact findSubstr_none_of_not_mem hP
    simp [findSubstr, l0, l1, l2, l3]
  | cons d ds ih =>
    have h1 : ¬('\x60' = d) := fun he => hW (by simp [← he])
    have h2 : '\x60' ∉ ds := fun he => hW (List.mem_cons_of_mem _ he)
    have hlw : leadsWith jsonFenceLit (d :: (ds ++ (fence3Lit ++ P2))) = false := by
      show leadsWith ('\x60' :: ['\x60', '\x60', 'j', 's', 'o', 'n'])
        (d :: (ds ++ (fence3Lit ++ P2))) = false
      simp [leadsWith, h1]
    show findSubstr jsonFenceLit (d :: (ds ++ (fence3Lit ++ P2))) = none
    simp only [findSubstr, hlw, if_false, Bool.false_eq_true, ih h2]
    rfl

/-- A match anywhere inside `s` makes `findSubstr` succeed. -/
theorem findSubstr_isSome_of_occurrence {sep : Str} (hsep : sep ≠ []) :
    ∀ {s : Str} {j : Nat}, leadsWith sep (s.drop j) = true →
      (findSubstr sep s).isSome = true := by
  intro s
  induction s with
  | nil =>
    intro j h
    rw [List.drop_nil] at h
    cases sep with
    | nil => exact absurd rfl hsep
    | cons c cs => simp [leadsWith] at h
  | cons d ds ih =>
    intro j h
    cases j with
    | zero =>
      rw [List.drop_zero] at h
      cases sep with
      | nil => exact absurd rfl hsep
      | cons c cs => simp [findSubstr, h]
    | succ k =>
      rw [List.drop_succ_cons] at h
      have hs := ih h
      cases sep with
      | nil => exact absurd rfl hsep
      | cons c cs =>
        by_cases hl : leadsWith (c :: cs) (d :: ds) = true
        · simp [findSubstr, hl]
        · simp only [findSubstr, hl, if_false]
          simpa using hs

/-- `findSubstr` really finds a match. -/
theorem findSubstr_some_leadsWith {sep : Str} :
    ∀ {s : Str} {i : Nat}, findSubstr sep s = some i →
      leadsWith sep (s.drop i) = true := by
  intro s
  induction s with
  | nil =>
    intro i h
    by_cases hl : leadsWith sep [] = true
    · simp only [findSubstr, hl, if_true, Option.some.injEq] at h
      subst h
      simpa using hl
    · simp [findSubstr, hl] at h
  | cons d ds ih =>
    intro i h
    by_cases hl : leadsWith sep (d :: ds) = true
    · simp only [findSubstr, hl, if_true, Option.some.injEq] at h
      subst h
      simpa using hl
    · simp only [findSubstr, hl, if_false] at h
      cases hg : findSubstr sep ds with
      | none => rw [hg] at h; simp at h
      | some k =>
        rw [hg] at h
        have hk : k + 1 = i := by simpa using h
        subst hk
        rw [List.drop_succ_cons]
        exact ih hg

/-- An occurrence inside a contiguous part is an occurrence in the whole:
contrapositive form used to transfer `includes`-freeness inward. -/
theorem findSubstr_none_inside {sep u v w : Str} (hsep : sep ≠ [])
    (h : findSubstr sep (u ++ v ++ w) = none) :
    findSubstr sep v = none := by
  cases hf : findSubstr sep v with
  | none => rfl
  | some i =>
    exfalso
    have hocc := findSubstr_some_leadsWith hf
    have hvi : i < v.length := by
      by_contra hge
      rw [List.drop_eq_nil_of_le (by omega)] at hocc
      cases sep with
      | nil => exact hsep rfl
      | cons c cs => simp [leadsWith] at hocc
    have hdrop : (u ++ v ++ w).drop (u.length + i) = v.drop i ++ w := by
      rw [List.append_assoc, List.drop_append_eq_append_drop,
        List.drop_eq_nil_of_le (by omega), List.nil_append]
      have h1 : u.length + i - u.length = i := by omega
      rw [h1, List.drop_append_eq_append_drop]
      have h2 : i - v.length = 0 := by omega
      rw [h2, List.drop_zero]
    have hwhole : leadsWith sep ((u ++ v ++ w).drop (u.length + i)) = true := by
      rw [hdrop]
      exact leadsWith_append _ hocc
    have := findSubstr_isSome_of_occurrence hsep hwhole
    rw [h] at this
    simp at this

theorem mem_jsSplitF {sep : Str} {c : Char} :
    ∀ {fuel : Nat} {s seg : Str}, seg ∈ jsSplitF sep fuel s → c ∈ seg → c ∈ s := by
  intro fuel
  induction fuel with
  | zero =>
    intro s seg hseg hc
    simp only [jsSplitF, List.mem_singleton] at hseg
    exact hseg ▸ hc
  | succ f ih =>
    intro s seg hseg hc
    rw [jsSplitF_succ] at hseg
    cases hf : findSubstr sep s with
    | none =>
      rw [hf] at hseg
      simp only [List.mem_singleton] at hseg
      exact hseg ▸ hc
    | some i =>
      rw [hf] at hseg
      simp only [List.mem_cons] at hseg
      cases hseg with
      | inl h => exact (List.take_sublist i s).subset (h ▸ hc)
      | inr h => exact (List.drop_sublist (i + sep.length) s).subset (ih h hc)

theorem mem_jsSplit {sep s seg : Str} {c : Char} (hseg : seg ∈ jsSplit sep s)
    (hc : c ∈ seg) : c ∈ s :=
  mem_jsSplitF hseg hc

theorem mem_getD_segment {c : Char} :
    ∀ {l : List Str} {i : Nat}, c ∈ l.getD i [] → ∃ seg, seg ∈ l ∧ c ∈ seg := by
  intro l
  induction l with
  | nil =>
    intro i h
    simp [List.getD] at h
  | cons x xs ih =>
    intro i h
    cases i with
    | zero => exact ⟨x, by simp, h⟩
    | succ n =>
      obtain ⟨seg, hseg, hc⟩ := ih (i := n) h
      exact ⟨seg, List.mem_cons_of_mem _ hseg, hc⟩

theorem mem_of_mem_fenceStrip {t : Str} {c : Char} (h : c ∈ fenceStrip t) : c ∈ t := by
  unfold fenceStrip at h
  split at h
  · obtain ⟨seg, hseg, hc⟩ := mem_getD_segment (mem_of_mem_jsTrim h)
    obtain ⟨seg2, hseg2, hc2⟩ := mem_getD_segment (mem_jsSplit hseg hc)
    exact mem_jsSplit hseg2 hc2
  · split at h
    · obtain ⟨seg, hseg, hc⟩ := mem_getD_segment (mem_of_mem_jsTrim h)
      obtain ⟨seg2, hseg2, hc2⟩ := mem_getD_segment (mem_jsSplit hseg hc)
      exact mem_jsSplit hseg2 hc2
    · exact h

theorem jsonFenceLit_cons : jsonFenceLit = '\x60' :: ['\x60', '\x60', 'j', 's', 'o', 'n'] := rfl

theorem fence3Lit_cons : fence3Lit = '\x60' :: ['\x60', '\x60'] := rfl

/-- A backtick-free text is left untouched by fence stripping. -/
theorem fenceStrip_id {u : Str} (h : '\x60' ∉ u) : fenceStrip u = u := by
  have h1 : jsIncludes u jsonFenceLit = false := by
    rw [jsonFenceLit_cons]
    exact jsIncludes_false_of_not_mem h
  have h2 : jsIncludes u fence3Lit = false := by
    rw [fence3Lit_cons]
    exact jsIncludes_false_of_not_mem h
  simp [fenceStrip, h1, h2]

theorem dropWhile_suffix_decomp {p : Char → Bool} :
    ∀ l : Str, ∃ u, l = u ++ l.dropWhile p := by
  intro l
  induction l with
  | nil => exact ⟨[], rfl⟩
  | cons d ds ih =>
    by_cases hd : p d = true
    · obtain ⟨u, hu⟩ := ih
      refine ⟨d :: u, ?_⟩
      simp only [List.dropWhile_cons, hd, if_true]
      simpa using hu
    · refine ⟨[], ?_⟩
      simp [List.dropWhile_cons, hd]

theorem rtrim_prefix_decomp (p : Char → Bool) (l : Str) :
    ∃ u, l = (l.reverse.dropWhile p).reverse ++ u := by
  obtain ⟨u, hu⟩ := dropWhile_suffix_decomp (p := p) l.reverse
  refine ⟨u.reverse, ?_⟩
  calc l = l.reverse.reverse := by simp
    _ = (u ++ l.reverse.dropWhile p).reverse := by rw [← hu]
    _ = (l.reverse.dropWhile p).reverse ++ u.reverse := by simp

theorem braceSlice_of_form {J : Type} (parse : Str → Option J) (P1 P2 mid : Str)
    (h1 : '\x7b' ∉ P1) (h2 : '\x7d' ∉ P2) :
    braceSlice parse (P1 ++ (('\x7b' :: (mid ++ ['\x7d'])) ++ P2)) =
      plainExtract parse ('\x7b' :: (mid ++ ['\x7d'])) := by
  have hidx : jsIndexOf '\x7b' (P1 ++ (('\x7b' :: (mid ++ ['\x7d'])) ++ P2)) =
      some P1.length := by
    rw [jsIndexOf_append_of_not_mem _ h1]
    have hh : jsIndexOf '\x7b' (('\x7b' :: (mid ++ ['\x7d'])) ++ P2) = some 0 := by
      simp [jsIndexOf]
    rw [hh]
    simp
  have hcore : ('\x7b' :: (mid ++ ['\x7d'])) = ('\x7b' :: mid) ++ ['\x7d'] := by simp
  have hlast : jsLastIndexOf '\x7d' (P1 ++ (('\x7b' :: (mid ++ ['\x7d'])) ++ P2)) =
      some (mid.length + 1 + P1.length) := by
    rw [jsLastIndexOf_append]
    have hl2 : jsLastIndexOf '\x7d' (('\x7b' :: (mid ++ ['\x7d'])) ++ P2) =
        some (mid.length + 1) := by
      rw [jsLastIndexOf_append, jsLastIndexOf_of_not_mem h2, hcore,
        jsLastIndexOf_append]
      show (match (some 0 : Option Nat) with
        | some j => some (j + ('\x7b' :: mid).length)
        | none => jsLastIndexOf '\x7d' ('\x7b' :: mid)) = some (mid.length + 1)
      simp
    rw [hl2]
  simp only [braceSlice, hidx, hlast]
  have hle : ¬(mid.length + 1 + P1.length ≤ P1.length) := by omega
  rw [if_neg hle]
  have hdrop : (P1 ++ (('\x7b' :: (mid ++ ['\x7d'])) ++ P2)).drop P1.length =
      ('\x7b' :: (mid ++ ['\x7d'])) ++ P2 := List.drop_left _ _
  have htakeLen : mid.length + 1 + P1.length + 1 - P1.length =
      ('\x7b' :: (mid ++ ['\x7d'])).length := by simp; omega
  rw [hdrop, htakeLen, List.take_left]
  cases hp : parse ('\x7b' :: (mid ++ ['\x7d'])) with
  | some v => simp [plainExtract, hp]
  | none => simp [plainExtract, hp]

theorem braceSlice_core {J : Type} (parse : Str → Option J) (mid : Str) :
    braceSlice parse ('\x7b' :: (mid ++ ['\x7d'])) =
      plainExtract parse ('\x7b' :: (mid ++ ['\x7d'])) := by
  have h := braceSlice_of_form parse [] [] mid (by simp) (by simp)
  simpa using h

theorem mem_rtrim {c : Char} {l : Str}
    (h : c ∈ (l.reverse.dropWhile wsChar).reverse) : c ∈ l := by
  rw [List.mem_reverse] at h
  have h2 := mem_of_mem_dropWhile h
  rwa [List.mem_reverse] at h2

theorem not_mem_core {c : Char} {mid : Str} (hm : c ∉ mid) (h1 : c ≠ '\x7b')
    (h2 : c ≠ '\x7d') : c ∉ ('\x7b' :: (mid ++ ['\x7d'])) := by
  intro h
  rcases List.mem_cons.mp h with h | h
  · exact h1 h
  · rcases List.mem_append.mp h with h | h
    · exact hm h
    · exact h2 (List.mem_singleton.mp h)

theorem ws_all_reverse {w : Str} (hw : ∀ c ∈ w, wsChar c = true) :
    ∀ c ∈ w.reverse, wsChar c = true := fun c hc => hw c (List.mem_reverse.mp hc)

/-- Trimming whitespace wrapped around a brace-delimited core gives the core. -/
theorem jsTrim_ws_wrap (w1 w2 mid : Str) (hw1 : ∀ c ∈ w1, wsChar c = true)
    (hw2 : ∀ c ∈ w2, wsChar c = true) :
    jsTrim (w1 ++ (('\x7b' :: (mid ++ ['\x7d'])) ++ w2)) =
      '\x7b' :: (mid ++ ['\x7d']) := by
  rw [show w1 ++ (('\x7b' :: (mid ++ ['\x7d'])) ++ w2) =
    w1 ++ ('\x7b' :: (mid ++ ['\x7d'])) ++ w2 from (List.append_assoc _ _ _).symm]
  rw [jsTrim_decomp '\x7b' '\x7d' w1 w2 ('\x7b' :: (mid ++ ['\x7d'])) (mid ++ ['\x7d'])
    ('\x7b' :: mid) rfl (by simp) rfl rfl]
  rw [dropWhile_all_nil hw1, dropWhile_all_nil (ws_all_reverse hw2)]
  simp

/-- Bare presentation: prose around a brace-delimited serialization,
prose and serialization free of backticks, the prose free of the braces
that would capture it. -/
theorem extract_bare {J : Type} (parse : Str → Option J) (p1 p2 mid : Str)
    (hb1 : '\x60' ∉ p1) (hb2 : '\x60' ∉ p2) (hbm : '\x60' ∉ mid)
    (ho : '\x7b' ∉ p1) (hc : '\x7d' ∉ p2) :
    extractJSON parse (p1 ++ (('\x7b' :: (mid ++ ['\x7d'])) ++ p2)) =
      plainExtract parse ('\x7b' :: (mid ++ ['\x7d'])) := by
  have ht : jsTrim (p1 ++ (('\x7b' :: (mid ++ ['\x7d'])) ++ p2)) =
      p1.dropWhile wsChar ++ (('\x7b' :: (mid ++ ['\x7d'])) ++
        (p2.reverse.dropWhile wsChar).reverse) := by
    rw [show p1 ++ (('\x7b' :: (mid ++ ['\x7d'])) ++ p2) =
      p1 ++ ('\x7b' :: (mid ++ ['\x7d'])) ++ p2 from (List.append_assoc _ _ _).symm]
    rw [jsTrim_decomp '\x7b' '\x7d' p1 p2 ('\x7b' :: (mid ++ ['\x7d'])) (mid ++ ['\x7d'])
      ('\x7b' :: mid) rfl (by simp) rfl rfl]
    rw [List.append_assoc]
  have hbt : '\x60' ∉ p1.dropWhile wsChar ++ (('\x7b' :: (mid ++ ['\x7d'])) ++
      (p2.reverse.dropWhile wsChar).reverse) := by
    intro hmem
    rcases List.mem_append.mp hmem with h | h
    · exact hb1 (mem_of_mem_dropWhile h)
    · rcases List.mem_append.mp h with h | h
      · exact not_mem_core hbm (by decide) (by decide) h
      · exact hb2 (mem_rtrim h)
  show braceSlice parse
    (fenceStrip (jsTrim (p1 ++ (('\x7b' :: (mid ++ ['\x7d'])) ++ p2)))) = _
  rw [ht, fenceStrip_id hbt]
  exact braceSlice_of_form parse _ _ mid
    (fun h => ho (mem_of_mem_dropWhile h)) (fun h => hc (mem_rtrim h))

theorem getD_cons_zero (x : Str) (l : List Str) : (x :: l).getD 0 [] = x := rfl

theorem getD_cons_one (x : Str) (l : List Str) : (x :: l).getD 1 [] = l.getD 0 [] := rfl

theorem jsonFenceLit_ne : jsonFenceLit ≠ [] := by simp [jsonFenceLit]

theorem fence3Lit_ne : fence3Lit ≠ [] := by simp [fence3Lit]

theorem not_mem_W {w1 w2 mid : Str} (hw1 : ∀ c ∈ w1, wsChar c = true)
    (hw2 : ∀ c ∈ w2, wsChar c = true) (hbm : '\x60' ∉ mid) :
    '\x60' ∉ w1 ++ (('\x7b' :: (mid ++ ['\x7d'])) ++ w2) := by
  intro h
  rcases List.mem_append.mp h with h | h
  · exact ws_ne_backtick (hw1 _ h) rfl
  · rcases List.mem_append.mp h with h | h
    · exact not_mem_core hbm (by decide) (by decide) h
    · exact ws_ne_backtick (hw2 _ h) rfl

/-- JSON-fenced presentation: prose, the `"```json"` fence, whitespace,
the serialization, whitespace, the closing fence, prose. -/
theorem extract_jsonFence {J : Type} (parse : Str → Option J)
    (p1 p2 w1 w2 mid : Str)
    (hw1 : ∀ c ∈ w1, wsChar c = true) (hw2 : ∀ c ∈ w2, wsChar c = true)
    (hb1 : '\x60' ∉ p1) (hb2 : '\x60' ∉ p2) (hbm : '\x60' ∉ mid) :
    extractJSON parse
        (p1 ++ (jsonFenceLit ++ (w1 ++ (('\x7b' :: (mid ++ ['\x7d'])) ++
          (w2 ++ (fence3Lit ++ p2)))))) =
      plainExtract parse ('\x7b' :: (mid ++ ['\x7d'])) := by
  have hT : p1 ++ (jsonFenceLit ++ (w1 ++ (('\x7b' :: (mid ++ ['\x7d'])) ++
      (w2 ++ (fence3Lit ++ p2))))) =
      p1 ++ (jsonFenceLit ++ ((w1 ++ (('\x7b' :: (mid ++ ['\x7d'])) ++ w2)) ++
        fence3Lit)) ++ p2 := by
    simp [List.append_assoc]
  have hcx : jsonFenceLit ++ ((w1 ++ (('\x7b' :: (mid ++ ['\x7d'])) ++ w2)) ++
      fence3Lit) = '\x60' :: (['\x60', '\x60', 'j', 's', 'o', 'n'] ++
        ((w1 ++ (('\x7b' :: (mid ++ ['\x7d'])) ++ w2)) ++ fence3Lit)) := rfl
  have hcy : jsonFenceLit ++ ((w1 ++ (('\x7b' :: (mid ++ ['\x7d'])) ++ w2)) ++
      fence3Lit) = (jsonFenceLit ++ ((w1 ++ (('\x7b' :: (mid ++ ['\x7d'])) ++ w2)) ++
        ['\x60', '\x60'])) ++ ['\x60'] := by
    simp [fence3Lit, List.append_assoc]
  have htrim : jsTrim (p1 ++ (jsonFenceLit ++ (w1 ++ (('\x7b' :: (mid ++ ['\x7d'])) ++
      (w2 ++ (fence3Lit ++ p2)))))) =
      p1.dropWhile wsChar ++ (jsonFenceLit ++ ((w1 ++ (('\x7b' :: (mid ++ ['\x7d'])) ++
        w2)) ++ fence3Lit)) ++ (p2.reverse.dropWhile wsChar).reverse := by
    rw [hT]
    exact jsTrim_decomp '\x60' '\x60' p1 p2 _ _ _ hcx hcy rfl rfl
  have hP1b : '\x60' ∉ p1.dropWhile wsChar := fun h => hb1 (mem_of_mem_dropWhile h)
  have hP2b : '\x60' ∉ (p2.reverse.dropWhile wsChar).reverse :=
    fun h => hb2 (mem_rtrim h)
  have hWb := not_mem_W hw1 hw2 hbm
  have hFind : findSubstr jsonFenceLit (p1.dropWhile wsChar ++ (jsonFenceLit ++
      ((w1 ++ (('\x7b' :: (mid ++ ['\x7d'])) ++ w2)) ++ fence3Lit)) ++
        (p2.reverse.dropWhile wsChar).reverse) =
      some (p1.dropWhile wsChar).length := by
    rw [show p1.dropWhile wsChar ++ (jsonFenceLit ++ ((w1 ++ (('\x7b' ::
        (mid ++ ['\x7d'])) ++ w2)) ++ fence3Lit)) ++
          (p2.reverse.dropWhile wsChar).reverse =
        p1.dropWhile wsChar ++ (jsonFenceLit ++ ((w1 ++ (('\x7b' ::
          (mid ++ ['\x7d'])) ++ w2)) ++ (fence3Lit ++
            (p2.reverse.dropWhile wsChar).reverse))) from by
      simp [List.append_assoc]]
    rw [jsonFenceLit_cons]
    exact findSubstr_append_left hP1b (leadsWith_self _ _)
  have hInc : jsIncludes (p1.dropWhile wsChar ++ (jsonFenceLit ++
      ((w1 ++ (('\x7b' :: (mid ++ ['\x7d'])) ++ w2)) ++ fence3Lit)) ++
        (p2.reverse.dropWhile wsChar).reverse) jsonFenceLit = true := by
    unfold jsIncludes
    rw [hFind]
    rfl
  have hS1 := jsSplit_of_some jsonFenceLit_ne hFind
  have htake : (p1.dropWhile wsChar ++ (jsonFenceLit ++ ((w1 ++ (('\x7b' ::
      (mid ++ ['\x7d'])) ++ w2)) ++ fence3Lit)) ++
        (p2.reverse.dropWhile wsChar).reverse).take (p1.dropWhile wsChar).length =
      p1.dropWhile wsChar := by
    rw [List.append_assoc]
    exact List.take_left _ _
  have hdropA : (p1.dropWhile wsChar ++ (jsonFenceLit ++ ((w1 ++ (('\x7b' ::
      (mid ++ ['\x7d'])) ++ w2)) ++ fence3Lit)) ++
        (p2.reverse.dropWhile wsChar).reverse).drop
          ((p1.dropWhile wsChar).length + jsonFenceLit.length) =
      (w1 ++ (('\x7b' :: (mid ++ ['\x7d'])) ++ w2)) ++
        (fence3Lit ++ (p2.reverse.dropWhile wsChar).reverse) := by
    rw [show p1.dropWhile wsChar ++ (jsonFenceLit ++ ((w1 ++ (('\x7b' ::
        (mid ++ ['\x7d'])) ++ w2)) ++ fence3Lit)) ++
          (p2.reverse.dropWhile wsChar).reverse =
        (p1.dropWhile wsChar ++ jsonFenceLit) ++ ((w1 ++ (('\x7b' ::
          (mid ++ ['\x7d'])) ++ w2)) ++ (fence3Lit ++
            (p2.reverse.dropWhile wsChar).reverse)) from by
      simp [List.append_assoc]]
    exact List.drop_left' (by simp)
  rw [htake, hdropA] at hS1
  show braceSlice parse (fenceStrip (jsTrim _)) = _
  rw [htrim]
  unfold fenceStrip
  rw [if_pos hInc, hS1, getD_cons_one]
  by_cases hj : leadsWith jsonTag ((p2.reverse.dropWhile wsChar).reverse) = true
  · obtain ⟨r, hr⟩ := leadsWith_exists hj
    have hA : (w1 ++ (('\x7b' :: (mid ++ ['\x7d'])) ++ w2)) ++
        (fence3Lit ++ (p2.reverse.dropWhile wsChar).reverse) =
        (w1 ++ (('\x7b' :: (mid ++ ['\x7d'])) ++ w2)) ++ (jsonFenceLit ++ r) := by
      rw [hr]
      simp [fence3Lit, jsonFenceLit, jsonTag, List.append_assoc]
    have hFA : findSubstr jsonFenceLit ((w1 ++ (('\x7b' :: (mid ++ ['\x7d'])) ++
        w2)) ++ (fence3Lit ++ (p2.reverse.dropWhile wsChar).reverse)) =
        some (w1 ++ (('\x7b' :: (mid ++ ['\x7d'])) ++ w2)).length := by
      rw [hA, jsonFenceLit_cons]
      exact findSubstr_append_left hWb (leadsWith_self _ _)
    rw [jsSplit_of_some jsonFenceLit_ne hFA]
    rw [show ((w1 ++ (('\x7b' :: (mid ++ ['\x7d'])) ++ w2)) ++
        (fence3Lit ++ (p2.reverse.dropWhile wsChar).reverse)).take
          (w1 ++ (('\x7b' :: (mid ++ ['\x7d'])) ++ w2)).length =
        w1 ++ (('\x7b' :: (mid ++ ['\x7d'])) ++ w2) from List.take_left _ _]
    rw [getD_cons_zero]
    rw [jsSplit_of_none (by rw [fence3Lit_cons]; exact findSubstr_none_of_not_mem hWb)]
    rw [getD_cons_zero]
    rw [jsTrim_ws_wrap w1 w2 mid hw1 hw2]
    exact braceSlice_core parse mid
  · have hFA : findSubstr jsonFenceLit ((w1 ++ (('\x7b' :: (mid ++ ['\x7d'])) ++
        w2)) ++ (fence3Lit ++ (p2.reverse.dropWhile wsChar).reverse)) = none :=
      findSubstr_jf_none hWb hP2b (by simpa using hj)
    rw [jsSplit_of_none hFA, getD_cons_zero]
    have hFA3 : findSubstr fence3Lit ((w1 ++ (('\x7b' :: (mid ++ ['\x7d'])) ++
        w2)) ++ (fence3Lit ++ (p2.reverse.dropWhile wsChar).reverse)) =
        some (w1 ++ (('\x7b' :: (mid ++ ['\x7d'])) ++ w2)).length := by
      rw [fence3Lit_cons]
      exact findSubstr_append_left hWb (leadsWith_self _ _)
    rw [jsSplit_of_some fence3Lit_ne hFA3]
    rw [show ((w1 ++ (('\x7b' :: (mid ++ ['\x7d'])) ++ w2)) ++
        (fence3Lit ++ (p2.reverse.dropWhile wsChar).reverse)).take
          (w1 ++ (('\x7b' :: (mid ++ ['\x7d'])) ++ w2)).length =
        w1 ++ (('\x7b' :: (mid ++ ['\x7d'])) ++ w2) from List.take_left _ _]
    rw [getD_cons_zero]
    rw [jsTrim_ws_wrap w1 w2 mid hw1 hw2]
    exact braceSlice_core parse mid

/-- Generic-fenced presentation, assuming the text carries no
`"```json"` marker (otherwise `_extractJSON` takes the JSON-fence
branch at a different position). -/
theorem extract_genericFence {J : Type} (parse : Str → Option J)
    (p1 p2 w1 w2 mid : Str)
    (hw1 : ∀ c ∈ w1, wsChar c = true) (hw2 : ∀ c ∈ w2, wsChar c = true)
    (hb1 : '\x60' ∉ p1) (hb2 : '\x60' ∉ p2) (hbm : '\x60' ∉ mid)
    (hni : jsIncludes (p1 ++ (fence3Lit ++ (w1 ++ (('\x7b' :: (mid ++ ['\x7d'])) ++
      (w2 ++ (fence3Lit ++ p2)))))) jsonFenceLit = false) :
    extractJSON parse
        (p1 ++ (fence3Lit ++ (w1 ++ (('\x7b' :: (mid ++ ['\x7d'])) ++
          (w2 ++ (fence3Lit ++ p2)))))) =
      plainExtract parse ('\x7b' :: (mid ++ ['\x7d'])) := by
  have hT : p1 ++ (fence3Lit ++ (w1 ++ (('\x7b' :: (mid ++ ['\x7d'])) ++
      (w2 ++ (fence3Lit ++ p2))))) =
      p1 ++ (fence3Lit ++ ((w1 ++ (('\x7b' :: (mid ++ ['\x7d'])) ++ w2)) ++
        fence3Lit)) ++ p2 := by
    simp [List.append_assoc]
  have hcx : fence3Lit ++ ((w1 ++ (('\x7b' :: (mid ++ ['\x7d'])) ++ w2)) ++
      fence3Lit) = '\x60' :: (['\x60', '\x60'] ++
        ((w1 ++ (('\x7b' :: (mid ++ ['\x7d'])) ++ w2)) ++ fence3Lit)) := rfl
  have hcy : fence3Lit ++ ((w1 ++ (('\x7b' :: (mid ++ ['\x7d'])) ++ w2)) ++
      fence3Lit) = (fence3Lit ++ ((w1 ++ (('\x7b' :: (mid ++ ['\x7d'])) ++ w2)) ++
        ['\x60', '\x60'])) ++ ['\x60'] := by
    simp [fence3Lit, List.append_assoc]
  have htrim : jsTrim (p1 ++ (fence3Lit ++ (w1 ++ (('\x7b' :: (mid ++ ['\x7d'])) ++
      (w2 ++ (fence3Lit ++ p2)))))) =
      p1.dropWhile wsChar ++ (fence3Lit ++ ((w1 ++ (('\x7b' :: (mid ++ ['\x7d'])) ++
        w2)) ++ fence3Lit)) ++ (p2.reverse.dropWhile wsChar).reverse := by
    rw [hT]
    exact jsTrim_decomp '\x60' '\x60' p1 p2 _ _ _ hcx hcy rfl rfl
  have hP1b : '\x60' ∉ p1.dropWhile wsChar := fun h => hb1 (mem_of_mem_dropWhile h)
  have hWb := not_mem_W hw1 hw2 hbm
  -- transfer the absence of a "```json" marker to the trimmed text
  have hIncJF : jsIncludes (p1.dropWhile wsChar ++ (fence3Lit ++
      ((w1 ++ (('\x7b' :: (mid ++ ['\x7d'])) ++ w2)) ++ fence3Lit)) ++
        (p2.reverse.dropWhile wsChar).reverse) jsonFenceLit = false := by
    obtain ⟨u, hu⟩ := dropWhile_suffix_decomp (p := wsChar) p1
    obtain ⟨u', hu'⟩ := rtrim_prefix_decomp wsChar p2
    have hwhole : findSubstr jsonFenceLit (p1 ++ (fence3Lit ++ (w1 ++
        (('\x7b' :: (mid ++ ['\x7d'])) ++ (w2 ++ (fence3Lit ++ p2)))))) = none := by
      unfold jsIncludes at hni
      cases hx : findSubstr jsonFenceLit (p1 ++ (fence3Lit ++ (w1 ++
          (('\x7b' :: (mid ++ ['\x7d'])) ++ (w2 ++ (fence3Lit ++ p2)))))) with
      | none => rfl
      | some k => rw [hx] at hni; simp at hni
    have hsplit : p1 ++ (fence3Lit ++ (w1 ++ (('\x7b' :: (mid ++ ['\x7d'])) ++
        (w2 ++ (fence3Lit ++ p2))))) =
        u ++ (p1.dropWhile wsChar ++ (fence3Lit ++ ((w1 ++ (('\x7b' ::
          (mid ++ ['\x7d'])) ++ w2)) ++ fence3Lit)) ++
            (p2.reverse.dropWhile wsChar).reverse) ++ u' := by
      conv_lhs => rw [hu, hu']
      simp [List.append_assoc]
    rw [hsplit] at hwhole
    unfold jsIncludes
    rw [findSubstr_none_inside jsonFenceLit_ne hwhole]
    rfl
  have hFind : findSubstr fence3Lit (p1.dropWhile wsChar ++ (fence3Lit ++
      ((w1 ++ (('\x7b' :: (mid ++ ['\x7d'])) ++ w2)) ++ fence3Lit)) ++
        (p2.reverse.dropWhile wsChar).reverse) =
      some (p1.dropWhile wsChar).length := by
    rw [show p1.dropWhile wsChar ++ (fence3Lit ++ ((w1 ++ (('\x7b' ::
        (mid ++ ['\x7d'])) ++ w2)) ++ fence3Lit)) ++
          (p2.reverse.dropWhile wsChar).reverse =
        p1.dropWhile wsChar ++ (fence3Lit ++ ((w1 ++ (('\x7b' ::
          (mid ++ ['\x7d'])) ++ w2)) ++ (fence3Lit ++
            (p2.reverse.dropWhile wsChar).reverse))) from by
      simp [List.append_assoc]]
    rw [fence3Lit_cons]
    exact findSubstr_append_left hP1b (leadsWith_self _ _)
  have hInc3 : jsIncludes (p1.dropWhile wsChar ++ (fence3Lit ++
      ((w1 ++ (('\x7b' :: (mid ++ ['\x7d'])) ++ w2)) ++ fence3Lit)) ++
        (p2.reverse.dropWhile wsChar).reverse) fence3Lit = true := by
    unfold jsIncludes
    rw [hFind]
    rfl
  have hS1 := jsSplit_of_some fence3Lit_ne hFind
  have htake : (p1.dropWhile wsChar ++ (fence3Lit ++ ((w1 ++ (('\x7b' ::
      (mid ++ ['\x7d'])) ++ w2)) ++ fence3Lit)) ++
        (p2.reverse.dropWhile wsChar).reverse).take (p1.dropWhile wsChar).length =
      p1.dropWhile wsChar := by
    rw [List.append_assoc]
    exact List.take_left _ _
  have hdropA : (p1.dropWhile wsChar ++ (fence3Lit ++ ((w1 ++ (('\x7b' ::
      (mid ++ ['\x7d'])) ++ w2)) ++ fence3Lit)) ++
        (p2.reverse.dropWhile wsChar).reverse).drop
          ((p1.dropWhile wsChar).length + fence3Lit.length) =
      (w1 ++ (('\x7b' :: (mid ++ ['\x7d'])) ++ w2)) ++
        (fence3Lit ++ (p2.reverse.dropWhile wsChar).reverse) := by
    rw [show p1.dropWhile wsChar ++ (fence3Lit ++ ((w1 ++ (('\x7b' ::
        (mid ++ ['\x7d'])) ++ w2)) ++ fence3Lit)) ++
          (p2.reverse.dropWhile wsChar).reverse =
        (p1.dropWhile wsChar ++ fence3Lit) ++ ((w1 ++ (('\x7b' ::
          (mid ++ ['\x7d'])) ++ w2)) ++ (fence3Lit ++
            (p2.reverse.dropWhile wsChar).reverse)) from by
      simp [List.append_assoc]]
    exact List.drop_left' (by simp)
  rw [htake, hdropA] at hS1
  have hFA3 : findSubstr fence3Lit ((w1 ++ (('\x7b' :: (mid ++ ['\x7d'])) ++
      w2)) ++ (fence3Lit ++ (p2.reverse.dropWhile wsChar).reverse)) =
      some (w1 ++ (('\x7b' :: (mid ++ ['\x7d'])) ++ w2)).length := by
    rw [fence3Lit_cons]
    exact findSubstr_append_left hWb (leadsWith_self _ _)
  show braceSlice parse (fenceStrip (jsTrim _)) = _
  rw [htrim]
  unfold fenceStrip
  rw [if_neg (by rw [hIncJF]; exact Bool.false_ne_true), if_pos hInc3, hS1,
    getD_cons_one]
  rw [jsSplit_of_some fence3Lit_ne hFA3]
  rw [show ((w1 ++ (('\x7b' :: (mid ++ ['\x7d'])) ++ w2)) ++
      (fence3Lit ++ (p2.reverse.dropWhile wsChar).reverse)).take
        (w1 ++ (('\x7b' :: (mid ++ ['\x7d'])) ++ w2)).length =
      w1 ++ (('\x7b' :: (mid ++ ['\x7d'])) ++ w2) from List.take_left _ _]
  rw [getD_cons_zero]
  rw [jsSplit_of_none (by rw [fence3Lit_cons]; exact findSubstr_none_of_not_mem hWb)]
  rw [getD_cons_zero]
  rw [jsTrim_ws_wrap w1 w2 mid hw1 hw2]
  exact braceSlice_core parse mid

/-- C1 (amended): for a brace-delimited serialization `'{' :: mid ++ ['}']`
free of backticks, presented bare between prose free of backticks with no
`{` before it and no `}` after it, or wrapped in a `"```json"` fence, or
wrapped in a generic `"```"` fence (the latter provided the text carries
no `"```json"` marker), with whitespace padding inside the fences,
`_extractJSON` computes the identical result in all three cases: the
parse of the serialization itself (so the identical parsed object
whenever it parses). -/
theorem extractJSON_wrapping_invariant {J : Type} (parse : Str → Option J)
    (p1 p2 w1 w2 mid : Str)
    (hw1 : ∀ c ∈ w1, wsChar c = true) (hw2 : ∀ c ∈ w2, wsChar c = true)
    (hb1 : '\x60' ∉ p1) (hb2 : '\x60' ∉ p2) (hbm : '\x60' ∉ mid)
    (ho : '\x7b' ∉ p1) (hc : '\x7d' ∉ p2) :
    extractJSON parse (p1 ++ (('\x7b' :: (mid ++ ['\x7d'])) ++ p2)) =
      plainExtract parse ('\x7b' :: (mid ++ ['\x7d'])) ∧
    extractJSON parse (p1 ++ (jsonFenceLit ++ (w1 ++ (('\x7b' :: (mid ++ ['\x7d'])) ++
        (w2 ++ (fence3Lit ++ p2)))))) =
      plainExtract parse ('\x7b' :: (mid ++ ['\x7d'])) ∧
    (jsIncludes (p1 ++ (fence3Lit ++ (w1 ++ (('\x7b' :: (mid ++ ['\x7d'])) ++
        (w2 ++ (fence3Lit ++ p2)))))) jsonFenceLit = false →
      extractJSON parse (p1 ++ (fence3Lit ++ (w1 ++ (('\x7b' :: (mid ++ ['\x7d'])) ++
          (w2 ++ (fence3Lit ++ p2)))))) =
        plainExtract parse ('\x7b' :: (mid ++ ['\x7d']))) :=
  ⟨extract_bare parse p1 p2 mid hb1 hb2 hbm ho hc,
    extract_jsonFence parse p1 p2 w1 w2 mid hw1 hw2 hb1 hb2 hbm,
    fun hni => extract_genericFence parse p1 p2 w1 w2 mid hw1 hw2 hb1 hb2 hbm hni⟩

/-- C1 (counterexample): with arbitrary surrounding prose the claim
fails. `{"a":1}` is a serialization of a well-formed object, yet with the
prose `"note: { first"` in front, the bare presentation makes
`_extractJSON` slice from the `{` inside the prose and fail to parse,
while the `"```json"`-fenced presentation of the same serialization
under the same prose returns the object — the results differ. -/
theorem extractJSON_prose_counterexample :
    jsonParse (("\x7b\"a\":1\x7d").toList) =
      some (JValue.obj [(("a").toList, JValue.num (DecNum.ofInt 1))]) ∧
    extractJSON jsonParse (("note: \x7b first\n\x7b\"a\":1\x7d").toList) =
      ExtractResult.parseFailure (("\x7b first\n\x7b\"a\":1\x7d").toList) ∧
    extractJSON jsonParse
        (("note: \x7b first\n\x60\x60\x60json\n\x7b\"a\":1\x7d\n\x60\x60\x60").toList) =
      ExtractResult.ok (JValue.obj [(("a").toList, JValue.num (DecNum.ofInt 1))]) ∧
    extractJSON jsonParse (("note: \x7b first\n\x7b\"a\":1\x7d").toList) ≠
      extractJSON jsonParse
        (("note: \x7b first\n\x60\x60\x60json\n\x7b\"a\":1\x7d\n\x60\x60\x60").toList) := by
  refine ⟨rfl, rfl, rfl, ?_⟩
  intro h
  have h2 : ExtractResult.parseFailure (("\x7b first\n\x7b\"a\":1\x7d").toList) =
      ExtractResult.ok (JValue.obj [(("a").toList, JValue.num (DecNum.ofInt 1))]) := by
    calc ExtractResult.parseFailure (("\x7b first\n\x7b\"a\":1\x7d").toList)
        = extractJSON jsonParse (("note: \x7b first\n\x7b\"a\":1\x7d").toList) := rfl
      _ = extractJSON jsonParse
          (("note: \x7b first\n\x60\x60\x60json\n\x7b\"a\":1\x7d\n\x60\x60\x60").toList) := h
      _ = ExtractResult.ok (JValue.obj [(("a").toList, JValue.num (DecNum.ofInt 1))]) := rfl
  exact ExtractResult.noConfusion h2

/-- C1 witness: the invariance theorem applied at a concrete model
response, all hypotheses discharged by computation. -/
theorem extractJSON_wrapping_invariant_witness :
    extractJSON jsonParse (("Here is the result:\n").toList ++
        (('\x7b' :: (("\"a\":1").toList ++ ['\x7d'])) ++ ("\nDone.").toList)) =
      plainExtract jsonParse ('\x7b' :: (("\"a\":1").toList ++ ['\x7d'])) ∧
    extractJSON jsonParse (("Here is the result:\n").toList ++
        (jsonFenceLit ++ (['\n'] ++ (('\x7b' :: (("\"a\":1").toList ++ ['\x7d'])) ++
          (['\n'] ++ (fence3Lit ++ ("\nDone.").toList)))))) =
      plainExtract jsonParse ('\x7b' :: (("\"a\":1").toList ++ ['\x7d'])) ∧
    extractJSON jsonParse (("Here is the result:\n").toList ++
        (fence3Lit ++ (['\n'] ++ (('\x7b' :: (("\"a\":1").toList ++ ['\x7d'])) ++
          (['\n'] ++ (fence3Lit ++ ("\nDone.").toList)))))) =
      plainExtract jsonParse ('\x7b' :: (("\"a\":1").toList ++ ['\x7d'])) := by
  have h := extractJSON_wrapping_invariant jsonParse (("Here is the result:\n").toList)
    (("\nDone.").toList) (['\n']) (['\n']) (("\"a\":1").toList)
    (by decide) (by decide) (by decide) (by decide) (by decide) (by decide) (by decide)
  exact ⟨h.1, h.2.1, h.2.2 (by decide)⟩

/-- C2: the failure paths of `_extractJSON`. If the input contains no `{`
or no `}` (in particular if the fence-stripped candidate does), or the
candidate's last `}` does not come strictly after its first `{`, the
result is the `MalformedResponseError` `'No valid JSON found in AI
response'` and no object is returned; if the candidate has the brace
pair but the brace slice is not parseable JSON, the failure carries the
first 200 characters of the offending slice. -/
theorem extractJSON_failure_paths {J : Type} (parse : Str → Option J) (t : Str) :
    (('\x7b' ∉ t ∨ '\x7d' ∉ t) →
      extractJSON parse t = ExtractResult.noValidJson) ∧
    (∀ a b, jsIndexOf '\x7b' (fenceStrip (jsTrim t)) = some a →
      jsLastIndexOf '\x7d' (fenceStrip (jsTrim t)) = some b → b ≤ a →
      extractJSON parse t = ExtractResult.noValidJson) ∧
    (∀ a b, jsIndexOf '\x7b' (fenceStrip (jsTrim t)) = some a →
      jsLastIndexOf '\x7d' (fenceStrip (jsTrim t)) = some b → a < b →
      parse (((fenceStrip (jsTrim t)).drop a).take (b + 1 - a)) = none →
      extractJSON parse t =
        ExtractResult.parseFailure
          ((((fenceStrip (jsTrim t)).drop a).take (b + 1 - a)).take 200)) := by
  refine ⟨?_, ?_, ?_⟩
  · intro hmem
    show braceSlice parse (fenceStrip (jsTrim t)) = ExtractResult.noValidJson
    cases hmem with
    | inl h =>
      have hno : '\x7b' ∉ fenceStrip (jsTrim t) :=
        fun hm => h (mem_of_mem_jsTrim (mem_of_mem_fenceStrip hm))
      rw [braceSlice, jsIndexOf_of_not_mem hno]
    | inr h =>
      have hno : '\x7d' ∉ fenceStrip (jsTrim t) :=
        fun hm => h (mem_of_mem_jsTrim (mem_of_mem_fenceStrip hm))
      rw [braceSlice, jsLastIndexOf_of_not_mem hno]
      cases jsIndexOf '\x7b' (fenceStrip (jsTrim t)) <;> rfl
  · intro a b ha hb hle
    show braceSlice parse (fenceStrip (jsTrim t)) = ExtractResult.noValidJson
    simp only [braceSlice, ha, hb]
    rw [if_pos hle]
  · intro a b ha hb hlt hp
    show braceSlice parse (fenceStrip (jsTrim t)) = _
    simp only [braceSlice, ha, hb, hp]
    rw [if_neg (by omega)]

/-- C2 witness: concrete inputs exercising both failure paths — a text
with no brace at all, and a brace-delimited candidate that is not JSON. -/
theorem extractJSON_failure_paths_witness :
    extractJSON jsonParse (("hello world").toList) =
      (ExtractResult.noValidJson : ExtractResult JValue) ∧
    extractJSON jsonParse (("\x7b oops \x7d").toList) =
      ExtractResult.parseFailure (("\x7b oops \x7d").toList) := by
  constructor
  · exact (extractJSON_failure_paths jsonParse (("hello world").toList)).1
      (Or.inl (by decide))
  · have h := (extractJSON_failure_paths jsonParse (("\x7b oops \x7d").toList)).2.2
      0 7 rfl rfl (by omega) rfl
    exact h

/-! ## Exactness of the decimal operations -/

theorem cast_mul_zpow_lt_left {x y : Int} {ex ey : Int} (h : ex ≤ ey) :
    ((x : ℚ) * 10 ^ ex < (y : ℚ) * 10 ^ ey) ↔ x < y * 10 ^ (ey - ex).toNat := by
  have h10 : (0 : ℚ) < (10 : ℚ) ^ ex := zpow_pos (by norm_num) _
  have hsplit : (10 : ℚ) ^ ey = (10 : ℚ) ^ ((ey - ex).toNat) * (10 : ℚ) ^ ex := by
    rw [← zpow_natCast, ← zpow_add₀ (by norm_num : (10 : ℚ) ≠ 0)]
    congr 1
    omega
  constructor
  · intro hh
    have h2 : (x : ℚ) * 10 ^ ex < ((y : ℚ) * 10 ^ ((ey - ex).toNat)) * 10 ^ ex := by
      calc (x : ℚ) * 10 ^ ex < (y : ℚ) * 10 ^ ey := hh
        _ = ((y : ℚ) * 10 ^ ((ey - ex).toNat)) * 10 ^ ex := by rw [hsplit]; ring
    have h3 : (x : ℚ) < (y : ℚ) * 10 ^ ((ey - ex).toNat) :=
      (mul_lt_mul_right h10).mp h2
    exact_mod_cast h3
  · intro hh
    have h3 : (x : ℚ) < (y : ℚ) * 10 ^ ((ey - ex).toNat) := by exact_mod_cast hh
    calc (x : ℚ) * 10 ^ ex < ((y : ℚ) * 10 ^ ((ey - ex).toNat)) * 10 ^ ex :=
          (mul_lt_mul_right h10).mpr h3
      _ = (y : ℚ) * 10 ^ ey := by rw [hsplit]; ring

theorem cast_mul_zpow_lt_right {x y : Int} {ex ey : Int} (h : ey ≤ ex) :
    ((x : ℚ) * 10 ^ ex < (y : ℚ) * 10 ^ ey) ↔ x * 10 ^ (ex - ey).toNat < y := by
  have h10 : (0 : ℚ) < (10 : ℚ) ^ ey := zpow_pos (by norm_num) _
  have hsplit : (10 : ℚ) ^ ex = (10 : ℚ) ^ ((ex - ey).toNat) * (10 : ℚ) ^ ey := by
    rw [← zpow_natCast, ← zpow_add₀ (by norm_num : (10 : ℚ) ≠ 0)]
    congr 1
    omega
  constructor
  · intro hh
    have h2 : ((x : ℚ) * 10 ^ ((ex - ey).toNat)) * 10 ^ ey < (y : ℚ) * 10 ^ ey := by
      calc ((x : ℚ) * 10 ^ ((ex - ey).toNat)) * 10 ^ ey
          = (x : ℚ) * 10 ^ ex := by rw [hsplit]; ring
        _ < (y : ℚ) * 10 ^ ey := hh
    have h3 : (x : ℚ) * 10 ^ ((ex - ey).toNat) < (y : ℚ) :=
      (mul_lt_mul_right h10).mp h2
    exact_mod_cast h3
  · intro hh
    have h3 : (x : ℚ) * 10 ^ ((ex - ey).toNat) < (y : ℚ) := by exact_mod_cast hh
    calc (x : ℚ) * 10 ^ ex = ((x : ℚ) * 10 ^ ((ex - ey).toNat)) * 10 ^ ey := by
          rw [hsplit]; ring
      _ < (y : ℚ) * 10 ^ ey := (mul_lt_mul_right h10).mpr h3

/-- The decimal comparison is the exact rational comparison. -/
theorem DecNum.blt_iff (a b : DecNum) : DecNum.blt a b = true ↔ a.toRat < b.toRat := by
  unfold DecNum.blt DecNum.toRat
  by_cases h : a.e ≤ b.e
  · rw [if_pos h, decide_eq_true_eq]
    exact (cast_mul_zpow_lt_left h).symm
  · rw [if_neg h, decide_eq_true_eq]
    exact (cast_mul_zpow_lt_right (by omega)).symm

theorem DecNum.toRat_ofInt (n : Int) : (DecNum.ofInt n).toRat = (n : ℚ) := by
  simp [DecNum.ofInt, DecNum.toRat]

/-- The integer rounding on decimals is exactly `⌊x + 1/2⌋`, ECMAScript
`Math.round`. -/
theorem DecNum.roundInt_eq (a : DecNum) : a.roundInt = roundJS a.toRat := by
  unfold DecNum.roundInt roundJS DecNum.toRat
  by_cases h : 0 ≤ a.e
  · rw [if_pos h]
    have hcast : (a.m : ℚ) * 10 ^ a.e = ((a.m * 10 ^ a.e.toNat : ℤ) : ℚ) := by
      push_cast
      rw [← zpow_natCast]
      congr 2
      omega
    rw [hcast, Int.floor_int_add]
    have : ⌊(1 / 2 : ℚ)⌋ = 0 := by norm_num [Int.floor_eq_zero_iff]
    rw [this, add_zero]
  · rw [if_neg h]
    have hk : a.e = -(((-a.e).toNat : ℕ) : ℤ) := by omega
    have hval : (a.m : ℚ) * 10 ^ a.e + 1 / 2 =
        ((2 * a.m + 10 ^ (-a.e).toNat : ℤ) : ℚ) /
          ((2 * 10 ^ (-a.e).toNat : ℕ) : ℚ) := by
      rw [hk, zpow_neg, zpow_natCast]
      have hpow : (0 : ℚ) < (10 : ℚ) ^ ((-a.e).toNat) := by positivity
      field_simp
      push_cast
      have hsup : (-a.e ⊔ 0) = -a.e := max_eq_left (by omega)
      rw [hsup]
      ring
    rw [hval, Rat.floor_intCast_div_natCast]
    congr 1
    push_cast
    ring

/-! ## Lemmas about the validator -/

theorem loopErr_none_all {d : JObject} :
    ∀ {fts : List (Str × FieldKind)}, loopErr d fts = none →
      ∀ ft ∈ fts, checkField d ft.1 ft.2 = none := by
  intro fts
  induction fts with
  | nil => intro _ ft hft; simp at hft
  | cons hd tl ih =>
    intro h ft hft
    obtain ⟨f, k⟩ := hd
    cases hc : checkField d f k with
    | some e => simp [loopErr, hc] at h
    | none =>
      simp only [loopErr, hc] at h
      rcases List.mem_cons.mp hft with hft | hft
      · rw [hft]; exact hc
      · exact ih h ft hft

theorem checkField_num_none {d : JObject} {f : Str}
    (h : checkField d f FieldKind.fnum = none) :
    ∃ q, jGet d f = some (JValue.num q) := by
  unfold checkField at h
  cases hg : jGet d f with
  | none => rw [hg] at h; simp at h
  | some v =>
    rw [hg] at h
    cases v with
    | num q => exact ⟨q, rfl⟩
    | jnull => simp at h
    | jbool b => simp at h
    | str s => simp at h
    | arr xs => simp at h
    | obj o => simp at h

theorem checkField_str_none {d : JObject} {f : Str}
    (h : checkField d f FieldKind.fstr = none) :
    ∃ s, jGet d f = some (JValue.str s) := by
  unfold checkField at h
  cases hg : jGet d f with
  | none => rw [hg] at h; simp at h
  | some v =>
    rw [hg] at h
    cases v with
    | str s => exact ⟨s, rfl⟩
    | jnull => simp at h
    | jbool b => simp at h
    | num q => simp at h
    | arr xs => simp at h
    | obj o => simp at h

theorem checkField_arr_none {d : JObject} {f : Str}
    (h : checkField d f FieldKind.farr = none) :
    ∃ xs, jGet d f = some (JValue.arr xs) := by
  unfold checkField at h
  cases hg : jGet d f with
  | none => rw [hg] at h; simp at h
  | some v =>
    rw [hg] at h
    cases v with
    | arr xs => exact ⟨xs, rfl⟩
    | jnull => simp at h
    | jbool b => simp at h
    | num q => simp at h
    | str s => simp at h
    | obj o => simp at h

theorem isArrAt_of_get {d : JObject} {f : Str} {xs : List JValue}
    (h : jGet d f = some (JValue.arr xs)) :
    isArrAt d f = true ∧ arrLen d f = xs.length := by
  unfold isArrAt arrLen
  rw [h]
  exact ⟨rfl, rfl⟩

theorem jGet_map_set {k : Str} {v : JValue} :
    ∀ d : JObject,
      jGet (d.map (fun p => if p.1 = k then (p.1, v) else p)) k =
        if (jGet d k).isSome then some v else none := by
  intro d
  induction d with
  | nil => simp [jGet]
  | cons hd tl ih =>
    obtain ⟨k', w⟩ := hd
    have hR : jGet ((k', w) :: tl) k =
        match jGet tl k with
        | some u => some u
        | none => if k' = k then some w else none := rfl
    by_cases hk : k' = k
    · have hmap : ((k', w) :: tl).map (fun p => if p.1 = k then (p.1, v) else p) =
          (k', v) :: tl.map (fun p => if p.1 = k then (p.1, v) else p) := by
        simp only [List.map_cons]
        congr 2
        rw [if_pos hk]
      rw [hmap]
      have hL : jGet ((k', v) :: tl.map (fun p => if p.1 = k then (p.1, v) else p)) k =
          match jGet (tl.map (fun p => if p.1 = k then (p.1, v) else p)) k with
          | some u => some u
          | none => if k' = k then some v else none := rfl
      rw [hL, ih, hR]
      cases hg : jGet tl k with
      | some u => simp
      | none => simp [hk]
    · have hmap : ((k', w) :: tl).map (fun p => if p.1 = k then (p.1, v) else p) =
          (k', w) :: tl.map (fun p => if p.1 = k then (p.1, v) else p) := by
        simp only [List.map_cons]
        congr 2
        rw [if_neg hk]
      rw [hmap]
      have hL : jGet ((k', w) :: tl.map (fun p => if p.1 = k then (p.1, v) else p)) k =
          match jGet (tl.map (fun p => if p.1 = k then (p.1, v) else p)) k with
          | some u => some u
          | none => if k' = k then some w else none := rfl
      rw [hL, ih, hR]
      cases hg : jGet tl k with
      | some u => simp
      | none => simp [hk]

theorem jGet_append (a b : JObject) (k : Str) :
    jGet (a ++ b) k =
      match jGet b k with
      | some w => some w
      | none => jGet a k := by
  induction a with
  | nil =>
    cases hb : jGet b k with
    | some w => simp [hb]
    | none => simp [hb, jGet]
  | cons hd tl ih =>
    obtain ⟨k', w'⟩ := hd
    show jGet ((k', w') :: (tl ++ b)) k = _
    simp only [jGet, ih]
    cases hb : jGet b k with
    | some u => rfl
    | none =>
      cases ht : jGet tl k with
      | some u => rfl
      | none => rfl

/-- JavaScript property update followed by lookup yields the new value. -/
theorem jGet_jSet (d : JObject) (k : Str) (v : JValue) :
    jGet (jSet d k v) k = some v := by
  unfold jSet
  by_cases h : (jGet d k).isSome
  · rw [if_pos h, jGet_map_set, if_pos h]
  · rw [if_neg h, jGet_append]
    show (match jGet [(k, v)] k with
      | some w => some w
      | none => jGet d k) = some v
    simp [jGet]

theorem firstSome_append {α : Type} (a b : List (Option α)) :
    firstSome (a ++ b) =
      match firstSome a with
      | some e => some e
      | none => firstSome b := by
  induction a with
  | nil => rfl
  | cons hd tl ih =>
    cases hd with
    | some e => rfl
    | none => simpa [firstSome] using ih

theorem loopErr_eq_firstSome (d : JObject) (fts : List (Str × FieldKind)) :
    loopErr d fts = firstSome (fts.map (fun ft => checkField d ft.1 ft.2)) := by
  induction fts with
  | nil => rfl
  | cons hd tl ih =>
    obtain ⟨f, k⟩ := hd
    cases hc : checkField d f k with
    | some e => simp [loopErr, firstSome, hc]
    | none => simpa [loopErr, firstSome, hc] using ih

/-- C3: on an object whose required fields are all present with their
declared top-level types and whose `matchScore` lies in the declared
range `[0,100]` (the `blt` hypotheses state exactly that the range check
does not fire), validation succeeds iff `resumeImprovements` has exactly
3 elements, `interviewQuestions` exactly 5, and `scoreExplanation` 2 or
3; each cardinality violation fails with the `SchemaViolationError`
naming that field, all-or-nothing. -/
theorem validateResponse_cardinality_law (d : JObject)
    (hfields : loopErr d requiredFields = none)
    (hlo : DecNum.blt (scoreVal d) (DecNum.ofInt 0) = false)
    (hhi : DecNum.blt (DecNum.ofInt 100) (scoreVal d) = false) :
    (validateResponse d = none ↔
      (arrLen d riKey = 3 ∧ arrLen d iqKey = 5 ∧
        (arrLen d seKey = 2 ∨ arrLen d seKey = 3))) ∧
    (arrLen d riKey ≠ 3 → validateResponse d = some VError.improvementsCount) ∧
    (arrLen d riKey = 3 → arrLen d iqKey ≠ 5 →
      validateResponse d = some VError.questionsCount) ∧
    (arrLen d riKey = 3 → arrLen d iqKey = 5 →
      (arrLen d seKey < 2 ∨ 3 < arrLen d seKey) →
      validateResponse d = some VError.explanationCount) := by
  obtain ⟨xsr, hxr⟩ := checkField_arr_none
    (loopErr_none_all hfields (riKey, FieldKind.farr) (by decide))
  obtain ⟨xsq, hxq⟩ := checkField_arr_none
    (loopErr_none_all hfields (iqKey, FieldKind.farr) (by decide))
  obtain ⟨xse, hxe⟩ := checkField_arr_none
    (loopErr_none_all hfields (seKey, FieldKind.farr) (by decide))
  have hisr := (isArrAt_of_get hxr).1
  have hisq := (isArrAt_of_get hxq).1
  have hise := (isArrAt_of_get hxe).1
  have hval : validateResponse d =
      (if arrLen d riKey ≠ 3 then some VError.improvementsCount
       else if arrLen d iqKey ≠ 5 then some VError.questionsCount
       else if arrLen d seKey < 2 ∨ 3 < arrLen d seKey then
         some VError.explanationCount
       else none) := by
    unfold validateResponse
    rw [hfields]
    rw [hlo, hhi]
    simp only [Bool.or_self, Bool.false_eq_true, if_false, hisr, hisq, hise]
    simp
  refine ⟨?_, ?_, ?_, ?_⟩
  · rw [hval]
    by_cases h3 : arrLen d riKey = 3
    · by_cases h5 : arrLen d iqKey = 5
      · by_cases h23 : arrLen d seKey < 2 ∨ 3 < arrLen d seKey
        · simp [h3, h5, h23]
          omega
        · simp [h3, h5, h23]
          omega
      · simp [h3, h5]
    · simp [h3]
  · intro h3
    rw [hval, if_pos h3]
  · intro h3 h5
    rw [hval, if_neg (by omega), if_pos h5]
  · intro h3 h5 h23
    rw [hval, if_neg (by omega), if_neg (by omega), if_pos h23]

/-- C3 witness: the cardinality law instantiated at a concrete
well-formed object, hypotheses discharged by computation. -/
theorem validateResponse_cardinality_law_witness :
    (validateResponse sampleAnalysis = none ↔
      (arrLen sampleAnalysis riKey = 3 ∧ arrLen sampleAnalysis iqKey = 5 ∧
        (arrLen sampleAnalysis seKey = 2 ∨ arrLen sampleAnalysis seKey = 3))) ∧
    (arrLen sampleAnalysis riKey ≠ 3 →
      validateResponse sampleAnalysis = some VError.improvementsCount) ∧
    (arrLen sampleAnalysis riKey = 3 → arrLen sampleAnalysis iqKey ≠ 5 →
      validateResponse sampleAnalysis = some VError.questionsCount) ∧
    (arrLen sampleAnalysis riKey = 3 → arrLen sampleAnalysis iqKey = 5 →
      (arrLen sampleAnalysis seKey < 2 ∨ 3 < arrLen sampleAnalysis seKey) →
      validateResponse sampleAnalysis = some VError.explanationCount) :=
  validateResponse_cardinality_law sampleAnalysis rfl rfl rfl

/-- C4: the `matchScore` contract. If the parsed object carries a numeric
`matchScore` of exact value `a`, then (i) whenever the
validate-then-round tail of `analyzeResume` returns a result, that
result's `matchScore` is the integer `⌊a + 1/2⌋` (`Math.round`), and
that integer lies in `[0,100]`; and (ii) when the value lies outside
`[0,100]`, validation fails with a `SchemaViolationError` and nothing is
returned. -/
theorem matchScore_range_round (d : JObject) (a : DecNum)
    (hq : jGet d msKey = some (JValue.num a)) :
    (∀ out, finalizeAnalysis d = Except.ok out →
      jGet out msKey = some (JValue.num (DecNum.ofInt (roundJS a.toRat))) ∧
      0 ≤ roundJS a.toRat ∧ roundJS a.toRat ≤ 100) ∧
    ((a.toRat < 0 ∨ 100 < a.toRat) → ∃ e, finalizeAnalysis d = Except.error e) := by
  have hsv : scoreVal d = a := by
    unfold scoreVal
    rw [hq]
  constructor
  · intro out hout
    unfold finalizeAnalysis at hout
    cases hv : validateResponse d with
    | some e => rw [hv] at hout; exact absurd hout (by simp)
    | none =>
      rw [hv] at hout
      have hout2 : jSet d msKey (JValue.num (DecNum.ofInt ((scoreVal d).roundInt))) =
          out := by
        have := hout
        simpa using this
      have hrange : (DecNum.blt (scoreVal d) (DecNum.ofInt 0) ||
          DecNum.blt (DecNum.ofInt 100) (scoreVal d)) = false := by
        by_cases hc : (DecNum.blt (scoreVal d) (DecNum.ofInt 0) ||
            DecNum.blt (DecNum.ofInt 100) (scoreVal d)) = true
        · exfalso
          unfold validateResponse at hv
          cases hl : loopErr d requiredFields with
          | some e => rw [hl] at hv; simp at hv
          | none =>
            rw [hl] at hv
            rw [if_pos hc] at hv
            simp at hv
        · simpa using hc
      have hb1 : DecNum.blt (scoreVal d) (DecNum.ofInt 0) = false := by
        rcases Bool.or_eq_false_iff.mp hrange with ⟨h1, _⟩
        exact h1
      have hb2 : DecNum.blt (DecNum.ofInt 100) (scoreVal d) = false := by
        rcases Bool.or_eq_false_iff.mp hrange with ⟨_, h2⟩
        exact h2
      have hge : (0 : ℚ) ≤ a.toRat := by
        by_contra hlt
        rw [hsv] at hb1
        have := (DecNum.blt_iff a (DecNum.ofInt 0)).mpr
          (by rw [DecNum.toRat_ofInt]; push_cast; linarith)
        rw [hb1] at this
        exact Bool.false_ne_true this
      have hle : a.toRat ≤ (100 : ℚ) := by
        by_contra hlt
        rw [hsv] at hb2
        have := (DecNum.blt_iff (DecNum.ofInt 100) a).mpr
          (by rw [DecNum.toRat_ofInt]; push_cast; linarith)
        rw [hb2] at this
        exact Bool.false_ne_true this
      refine ⟨?_, ?_, ?_⟩
      · rw [← hout2, jGet_jSet, hsv, DecNum.roundInt_eq]
      · rw [roundJS, Int.le_floor]
        push_cast
        linarith
      · rw [roundJS]
        have : (⌊a.toRat + 1 / 2⌋ : ℤ) < 101 := by
          rw [Int.floor_lt]
          push_cast
          linarith
        omega
  · intro hout
    cases hl : loopErr d requiredFields with
    | some e =>
      refine ⟨e, ?_⟩
      unfold finalizeAnalysis validateResponse
      rw [hl]
    | none =>
      refine ⟨VError.scoreOutOfRange, ?_⟩
      have hc : (DecNum.blt (scoreVal d) (DecNum.ofInt 0) ||
          DecNum.blt (DecNum.ofInt 100) (scoreVal d)) = true := by
        rcases hout with h | h
        · have : DecNum.blt (scoreVal d) (DecNum.ofInt 0) = true := by
            rw [hsv]
            exact (DecNum.blt_iff a (DecNum.ofInt 0)).mpr
              (by rw [DecNum.toRat_ofInt]; push_cast; linarith)
          simp [this]
        · have : DecNum.blt (DecNum.ofInt 100) (scoreVal d) = true := by
            rw [hsv]
            exact (DecNum.blt_iff (DecNum.ofInt 100) a).mpr
              (by rw [DecNum.toRat_ofInt]; push_cast; linarith)
          simp [this]
      unfold finalizeAnalysis validateResponse
      rw [hl, if_pos hc]

/-- C4 witness: the contract at the spec's example — raw score `87.6`
validates and is returned rounded to `88`. -/
theorem matchScore_range_round_witness :
    finalizeAnalysis sampleAnalysis =
      Except.ok (jSet sampleAnalysis msKey (JValue.num (DecNum.ofInt 88))) ∧
    ((∀ out, finalizeAnalysis sampleAnalysis = Except.ok out →
      jGet out msKey =
        some (JValue.num (DecNum.ofInt (roundJS (DecNum.toRat ⟨876, -1⟩)))) ∧
      0 ≤ roundJS (DecNum.toRat ⟨876, -1⟩) ∧
      roundJS (DecNum.toRat ⟨876, -1⟩) ≤ 100) ∧
    ((DecNum.toRat ⟨876, -1⟩ < 0 ∨ 100 < DecNum.toRat ⟨876, -1⟩) →
      ∃ e, finalizeAnalysis sampleAnalysis = Except.error e)) :=
  ⟨rfl, matchScore_range_round sampleAnalysis ⟨876, -1⟩ rfl⟩

/-- C5 (amended): a successful validation guarantees exactly the
top-level types — `matchScore` a number, `coverLetter` a string, and the
four list fields arrays; element types inside the arrays are not
checked. -/
theorem validateResponse_top_level_types (d : JObject)
    (h : validateResponse d = none) :
    (∃ q, jGet d msKey = some (JValue.num q)) ∧
    (∃ s, jGet d clKey = some (JValue.str s)) ∧
    (∃ xs, jGet d mskKey = some (JValue.arr xs)) ∧
    (∃ xs, jGet d seKey = some (JValue.arr xs)) ∧
    (∃ xs, jGet d riKey = some (JValue.arr xs)) ∧
    (∃ xs, jGet d iqKey = some (JValue.arr xs)) := by
  have hl : loopErr d requiredFields = none := by
    cases hl : loopErr d requiredFields with
    | none => rfl
    | some e =>
      unfold validateResponse at h
      rw [hl] at h
      simp at h
  exact ⟨checkField_num_none (loopErr_none_all hl (msKey, FieldKind.fnum) (by decide)),
    checkField_str_none (loopErr_none_all hl (clKey, FieldKind.fstr) (by decide)),
    checkField_arr_none (loopErr_none_all hl (mskKey, FieldKind.farr) (by decide)),
    checkField_arr_none (loopErr_none_all hl (seKey, FieldKind.farr) (by decide)),
    checkField_arr_none (loopErr_none_all hl (riKey, FieldKind.farr) (by decide)),
    checkField_arr_none (loopErr_none_all hl (iqKey, FieldKind.farr) (by decide))⟩

/-- C5 (counterexample): element types are not validated — an object
whose `missingSkills` array contains a number (not a string) still
passes `_validateResponse`, contradicting the claim that such an object
fails. -/
theorem validateResponse_element_type_counterexample :
    jGet (jSet sampleAnalysis mskKey (JValue.arr [JValue.num (DecNum.ofInt 1)]))
        mskKey = some (JValue.arr [JValue.num (DecNum.ofInt 1)]) ∧
    isStringV (JValue.num (DecNum.ofInt 1)) = false ∧
    validateResponse
        (jSet sampleAnalysis mskKey (JValue.arr [JValue.num (DecNum.ofInt 1)])) =
      none :=
  ⟨rfl, rfl, rfl⟩

/-- C5 witness: the amended type-guarantee theorem at a concrete object. -/
theorem validateResponse_top_level_types_witness :
    (∃ q, jGet sampleAnalysis msKey = some (JValue.num q)) ∧
    (∃ s, jGet sampleAnalysis clKey = some (JValue.str s)) ∧
    (∃ xs, jGet sampleAnalysis mskKey = some (JValue.arr xs)) ∧
    (∃ xs, jGet sampleAnalysis seKey = some (JValue.arr xs)) ∧
    (∃ xs, jGet sampleAnalysis riKey = some (JValue.arr xs)) ∧
    (∃ xs, jGet sampleAnalysis iqKey = some (JValue.arr xs)) :=
  validateResponse_top_level_types sampleAnalysis rfl

/-- C6 (amended): `_validateResponse` checks its rules in the fixed
order presence+type interleaved per field — `matchScore`,
`missingSkills`, `scoreExplanation`, `resumeImprovements`,
`coverLetter`, `interviewQuestions` — then the `matchScore` range, then
the `resumeImprovements`, `interviewQuestions` and `scoreExplanation`
cardinalities, failing fast: the error raised is always the verdict of
the first violated rule in that list. -/
theorem validateResponse_rule_order (d : JObject) :
    validateResponse d = firstSome (ruleVerdicts d) := by
  unfold validateResponse ruleVerdicts
  rw [firstSome_append, ← loopErr_eq_firstSome]
  cases hl : loopErr d requiredFields with
  | some e => rfl
  | none =>
    unfold constraintVerdicts
    by_cases h1 : (DecNum.blt (scoreVal d) (DecNum.ofInt 0) ||
        DecNum.blt (DecNum.ofInt 100) (scoreVal d)) = true
    · simp [h1, firstSome]
    · by_cases h2 : isArrAt d riKey = false ∨ arrLen d riKey ≠ 3
      · simp [h1, h2, firstSome]
      · by_cases h3 : isArrAt d iqKey = false ∨ arrLen d iqKey ≠ 5
        · simp [h1, h2, h3, firstSome]
        · by_cases h4 : isArrAt d seKey = false ∨ arrLen d seKey < 2 ∨
              3 < arrLen d seKey
          · simp [h1, h2, h3, h4, firstSome]
          · simp [h1, h2, h3, h4, firstSome]

/-- C6 (counterexample): the spec's order — all presence checks before
all type checks — is not the code's. On an object whose `matchScore` is
present but mistyped and whose other fields are missing, the code
raises the `matchScore` type error, while the spec's order would raise
the missing-`missingSkills` error first. -/
theorem validateResponse_order_counterexample :
    validateResponse [(msKey, JValue.str (['x']))] =
      some (VError.notNumber msKey) ∧
    specOrderValidate [(msKey, JValue.str (['x']))] =
      some (VError.missingField mskKey) ∧
    VError.notNumber msKey ≠ VError.missingField mskKey :=
  ⟨rfl, rfl, by decide⟩

/-! ## Resolver lemmas -/

theorem jsIncludes_nil_cons (c : Char) (cs : Str) :
    jsIncludes [] (c :: cs) = false := rfl

theorem isEmpty_false_of_ne {l : Str} (h : l ≠ []) : l.isEmpty = false := by
  cases l with
  | nil => exact absurd rfl h
  | cons a as => rfl

/-- C7 (amended): whenever the capability listing yields a non-empty
eligible set, the resolver picks the first eligible identifier containing
`"flash"`, else the first containing `"pro"`, else the first eligible
identifier in listing order; the pick always belongs to the eligible set,
and is non-empty provided every eligible identifier is (an entry named
exactly `"models/"` strips to the empty identifier, see the
counterexample). -/
theorem selectModel_preference (models : List ModelInfo)
    (hne : eligibleIds models ≠ []) :
    ∃ r, selectModel models = some r ∧ r ∈ eligibleIds models ∧
      ((eligibleIds models).find? (fun m => jsIncludes m flashLit) = some r ∨
        ((eligibleIds models).find? (fun m => jsIncludes m flashLit) = none ∧
          (eligibleIds models).find? (fun m => jsIncludes m proLit) = some r) ∨
        ((eligibleIds models).find? (fun m => jsIncludes m flashLit) = none ∧
          (eligibleIds models).find? (fun m => jsIncludes m proLit) = none ∧
          r = (eligibleIds models).headD [])) ∧
      ((∀ m ∈ eligibleIds models, m ≠ []) → r ≠ []) := by
  have hEe : (eligibleIds models).isEmpty = false := by
    cases hE : eligibleIds models with
    | nil => exact absurd hE hne
    | cons a l => rfl
  have hsel : selectModel models = some (selectPreferred (eligibleIds models)) := by
    show (if (eligibleIds models).isEmpty then none
      else some (selectPreferred (eligibleIds models))) = _
    rw [hEe]
    rfl
  cases hf : (eligibleIds models).find? (fun m => jsIncludes m flashLit) with
  | some f =>
    have hmem : f ∈ eligibleIds models := List.mem_of_find?_eq_some hf
    have hpred : jsIncludes f flashLit = true := by
      have := List.find?_some hf
      simpa using this
    have hfne : f ≠ [] := by
      intro he
      rw [he] at hpred
      exact Bool.false_ne_true ((jsIncludes_nil_cons _ _) ▸ hpred)
    have hsp : selectPreferred (eligibleIds models) = f := by
      unfold selectPreferred jsStrOr
      simp [hf, isEmpty_false_of_ne hfne]
    refine ⟨f, by rw [hsel, hsp], hmem, Or.inl rfl, fun _ => hfne⟩
  | none =>
    cases hp : (eligibleIds models).find? (fun m => jsIncludes m proLit) with
    | some g =>
      have hmem : g ∈ eligibleIds models := List.mem_of_find?_eq_some hp
      have hpred : jsIncludes g proLit = true := by
        have := List.find?_some hp
        simpa using this
      have hgne : g ≠ [] := by
        intro he
        rw [he] at hpred
        exact Bool.false_ne_true ((jsIncludes_nil_cons _ _) ▸ hpred)
      have hsp : selectPreferred (eligibleIds models) = g := by
        unfold selectPreferred jsStrOr
        simp [hf, hp, isEmpty_false_of_ne hgne]
      refine ⟨g, by rw [hsel, hsp], hmem, Or.inr (Or.inl ⟨rfl, rfl⟩), fun _ => hgne⟩
    | none =>
      have hsp : selectPreferred (eligibleIds models) =
          (eligibleIds models).headD [] := by
        unfold selectPreferred jsStrOr
        simp [hf, hp]
      have hmem : (eligibleIds models).headD [] ∈ eligibleIds models := by
        cases hE : eligibleIds models with
        | nil => exact absurd hE hne
        | cons a l => simp
      refine ⟨(eligibleIds models).headD [], by rw [hsel, hsp], hmem,
        Or.inr (Or.inr ⟨rfl, rfl, rfl⟩), fun hall => hall _ hmem⟩

/-- C7 (counterexample): a listing entry named exactly `"models/"` that
supports `generateContent` makes the eligible set non-empty, yet the
resolver returns the empty identifier — refuting "never returns an
empty identifier" as an unconditional law. -/
theorem selectModel_empty_id_counterexample :
    eligibleIds [⟨("models/").toList, some [("generateContent").toList]⟩] =
      [[]] ∧
    selectModel [⟨("models/").toList, some [("generateContent").toList]⟩] =
      some [] :=
  ⟨rfl, rfl⟩

/-- C7 witness: on a concrete listing with one `pro` and one `flash`
model, the resolver picks the flash one. -/
theorem selectModel_preference_witness :
    selectModel
        [⟨("models/gemini-pro").toList, some [("generateContent").toList]⟩,
         ⟨("models/gemini-1.5-flash").toList, some [("generateContent").toList]⟩] =
      some (("gemini-1.5-flash").toList) ∧
    ("gemini-1.5-flash").toList ∈ eligibleIds
      [⟨("models/gemini-pro").toList, some [("generateContent").toList]⟩,
       ⟨("models/gemini-1.5-flash").toList, some [("generateContent").toList]⟩] ∧
    ("gemini-1.5-flash").toList ≠ [] := by
  obtain ⟨r, h1, h2, _, h4⟩ := selectModel_preference
    [⟨("models/gemini-pro").toList, some [("generateContent").toList]⟩,
     ⟨("models/gemini-1.5-flash").toList, some [("generateContent").toList]⟩]
    (by decide)
  have hval : selectModel
      [⟨("models/gemini-pro").toList, some [("generateContent").toList]⟩,
       ⟨("models/gemini-1.5-flash").toList, some [("generateContent").toList]⟩] =
      some (("gemini-1.5-flash").toList) := rfl
  have hr : r = ("gemini-1.5-flash").toList := by
    rw [hval] at h1
    exact (Option.some.inj h1).symm
  subst hr
  exact ⟨hval, h2, h4 (by decide)⟩

/-! ## Caching / idempotence lemmas -/

theorem tryFallback_ok_model (env : ResolveEnv) (st : AIState) :
    ∀ l : List Str, (tryFallback env st l).2 = Except.ok () →
      ((tryFallback env st l).1).model.isSome = true := by
  intro l
  induction l with
  | nil => intro h; simp [tryFallback] at h
  | cons n rest ih =>
    intro h
    by_cases hc : env.constructOk n = true
    · simp [tryFallback, hc]
    · simp only [tryFallback, hc, Bool.false_eq_true, if_false] at h ⊢
      exact ih h

theorem initializeModel_ok_model (env : ResolveEnv) (st : AIState)
    (h : (initializeModel env st).2.1 = Except.ok ()) :
    ((initializeModel env st).1).model.isSome = true := by
  unfold initializeModel at h ⊢
  cases hm : st.modelName with
  | some name =>
    by_cases hc : env.constructOk name = true
    · simp [hm, hc]
    · simp [hm, hc] at h ⊢
      exact tryFallback_ok_model env st fallbackNames h
  | none =>
    cases hs : selectModel env.listing with
    | some chosen =>
      by_cases hc : env.constructOk chosen = true
      · simp [hm, hs, hc]
      · simp [hm, hs, hc] at h
    | none =>
      simp [hm, hs] at h ⊢
      exact tryFallback_ok_model env st fallbackNames h

theorem initializeModel_probes_le (env : ResolveEnv) (st : AIState) :
    (initializeModel env st).2.2 ≤ 1 := by
  unfold initializeModel
  cases hm : st.modelName with
  | some name =>
    by_cases hc : env.constructOk name = true
    · simp [hc]
    · simp [hc]
  | none =>
    cases hs : selectModel env.listing with
    | some chosen =>
      by_cases hc : env.constructOk chosen = true
      · simp [hs, hc]
      · simp [hs, hc]
    | none => simp [hs]

theorem ensureModel_of_isSome (env : ResolveEnv) (st : AIState)
    (h : st.model.isSome = true) : ensureModel env st = (st, Except.ok (), 0) := by
  cases hm : st.model with
  | none => rw [hm] at h; simp at h
  | some m => simp [ensureModel, hm]

/-- C8: once `analyzeResume`'s resolution guard has succeeded, the cached
model is set, so a subsequent call performs no resolution step and no
network probe regardless of the environment, and the successful
resolution itself performed at most one probe — two resolutions in
sequence without invalidation probe the network at most once in total. -/
theorem ensureModel_idempotent (env : ResolveEnv) (st : AIState)
    (h : (ensureModel env st).2.1 = Except.ok ()) :
    (ensureModel env st).2.2 ≤ 1 ∧
    ∀ env2, ensureModel env2 (ensureModel env st).1 =
      ((ensureModel env st).1, Except.ok (), 0) := by
  cases hm : st.model with
  | some m =>
    have he : ensureModel env st = (st, Except.ok (), 0) :=
      ensureModel_of_isSome env st (by rw [hm]; rfl)
    rw [he]
    exact ⟨Nat.zero_le 1, fun env2 => ensureModel_of_isSome env2 st (by rw [hm]; rfl)⟩
  | none =>
    have he : ensureModel env st = initializeModel env st := by
      simp [ensureModel, hm]
    rw [he] at h ⊢
    refine ⟨initializeModel_probes_le env st, fun env2 => ?_⟩
    exact ensureModel_of_isSome env2 _ (initializeModel_ok_model env st h)

/-- C8 witness: a fresh service resolves once (one probe), and the next
call — even against an environment whose listing is empty and whose
client constructor always fails — touches nothing. -/
theorem ensureModel_idempotent_witness :
    (ensureModel ⟨[⟨("models/gemini-1.5-flash").toList,
        some [("generateContent").toList]⟩], fun _ => true⟩ ⟨none, none⟩).2.2 ≤ 1 ∧
    ensureModel ⟨[], fun _ => false⟩
        (ensureModel ⟨[⟨("models/gemini-1.5-flash").toList,
          some [("generateContent").toList]⟩], fun _ => true⟩ ⟨none, none⟩).1 =
      ((ensureModel ⟨[⟨("models/gemini-1.5-flash").toList,
          some [("generateContent").toList]⟩], fun _ => true⟩ ⟨none, none⟩).1,
        Except.ok (), 0) := by
  have h := ensureModel_idempotent
    ⟨[⟨("models/gemini-1.5-flash").toList, some [("generateContent").toList]⟩],
      fun _ => true⟩ ⟨none, none⟩ rfl
  exact ⟨h.1, h.2 ⟨[], fun _ => false⟩⟩

theorem retryTruncate_eq_truncateInput : ∀ s, retryTruncate s = truncateInput s :=
  fun _ => rfl

theorem handleCatch_calls_le (env : InferEnv) (st : AIState) (msg resume jd : Str)
    (calls : Nat) (prompts : List Str) (probes : Nat) :
    (handleCatch env st msg resume jd calls prompts probes).inferCalls ≤ calls + 1 := by
  simp only [handleCatch]
  repeat' split
  all_goals simp

theorem analyzeResume_calls_le (env : InferEnv) (st0 : AIState) (r j : Str) :
    (analyzeResume env st0 r j).inferCalls ≤ 2 := by
  simp only [analyzeResume]
  split
  · simp
  · split
    · exact (handleCatch_calls_le env _ _ r j 0 _ _).trans (by omega)
    · split
      · exact (handleCatch_calls_le env _ _ r j 0 _ _).trans (by omega)
      · split
        · exact (handleCatch_calls_le env _ _ r j 1 _ _).trans (by omega)
        · split
          · simp
          · exact (handleCatch_calls_le env _ _ r j 1 _ _).trans (by omega)

/-- C9 (amended): when the one inference attempt of a cycle fails with a
message the `catch` classifier routes to the not-found branch — it
contains `'404'` or `'not found'` AND none of the earlier-checked
markers `'API_KEY'`, `'quota'`, `'rate limit'`, which take precedence —
the cached model is invalidated and exactly one more full cycle runs
(re-resolution, second inference, extraction, validation), the 15,000
character truncation applied identically on both prompts; a failure of
the second attempt surfaces as the diagnostic error listing the
available identifiers, and no input whatsoever provokes a third
inference call. -/
theorem analyzeResume_retry_policy (env : InferEnv) (st0 : AIState)
    (resume jd msg : Str)
    (hok : (ensureModel env.renv st0).2.1 = Except.ok ())
    (hr : (jsTrim resume).isEmpty = false)
    (hj : (jsTrim jd).isEmpty = false)
    (h1 : env.outcome1 = Except.error msg)
    (hnf : notFoundClass msg = true)
    (hre : (initializeModel env.renv
      { (ensureModel env.renv st0).1 with model := none }).2.1 = Except.ok ()) :
    (analyzeResume env st0 resume jd).inferCalls = 2 ∧
    (analyzeResume env st0 resume jd).prompts =
      [buildAnalysisPrompt (truncateInput resume) (truncateInput jd),
       buildAnalysisPrompt (truncateInput resume) (truncateInput jd)] ∧
    (analyzeResume env st0 resume jd).state =
      (initializeModel env.renv
        { (ensureModel env.renv st0).1 with model := none }).1 ∧
    (∀ m2, env.outcome2 = Except.error m2 →
      (analyzeResume env st0 resume jd).result =
        Except.error (diagnosticMsg
          (initializeModel env.renv
            { (ensureModel env.renv st0).1 with model := none }).1.modelName
          env.renv.listing msg)) ∧
    (∀ env2 st2 r2 j2, (analyzeResume env2 st2 r2 j2).inferCalls ≤ 2) := by
  simp only [notFoundClass, Bool.and_eq_true, Bool.not_eq_true'] at hnf
  obtain ⟨⟨⟨hor, hA⟩, hQ⟩, hR⟩ := hnf
  have hmain : analyzeResume env st0 resume jd =
      handleCatch env (ensureModel env.renv st0).1 msg resume jd 1
        [buildAnalysisPrompt (truncateInput resume) (truncateInput jd)]
        (ensureModel env.renv st0).2.2 := by
    simp [analyzeResume, hok, hr, hj, h1]
  refine ⟨?_, ?_, ?_, ?_, fun env2 st2 r2 j2 => analyzeResume_calls_le env2 st2 r2 j2⟩
  · rw [hmain]
    cases ho2 : env.outcome2 with
    | error m2 => simp [handleCatch, hA, hQ, hR, hor, hre, ho2]
    | ok t2 =>
      cases hp : pipeline t2 <;>
        simp [handleCatch, hA, hQ, hR, hor, hre, ho2, hp]
  · rw [hmain]
    cases ho2 : env.outcome2 with
    | error m2 =>
      simp [handleCatch, hA, hQ, hR, hor, hre, ho2, retryTruncate_eq_truncateInput]
    | ok t2 =>
      cases hp : pipeline t2 <;>
        simp [handleCatch, hA, hQ, hR, hor, hre, ho2, hp, retryTruncate_eq_truncateInput]
  · rw [hmain]
    cases ho2 : env.outcome2 with
    | error m2 => simp [handleCatch, hA, hQ, hR, hor, hre, ho2]
    | ok t2 =>
      cases hp : pipeline t2 <;>
        simp [handleCatch, hA, hQ, hR, hor, hre, ho2, hp]
  · intro m2 hm2
    rw [hmain]
    simp [handleCatch, hA, hQ, hR, hor, hre, hm2]

/-- C9 (counterexample): the message `"API_KEY not found"` contains the
not-found indicator, yet no retry occurs — the API-key check precedes
the not-found check in the classifier, so the call fails immediately
with the API-key message, one inference call, cache untouched. This
refutes the unqualified "the error message contains 404 or not found ⟹
retry" reading. -/
theorem analyzeResume_classification_counterexample :
    jsIncludes cexMsg9 notFoundTok = true ∧
    (analyzeResume cexEnv9 wSt9 (("r").toList) (("j").toList)).result =
      Except.error apiKeyErrMsg ∧
    (analyzeResume cexEnv9 wSt9 (("r").toList) (("j").toList)).inferCalls = 1 ∧
    (analyzeResume cexEnv9 wSt9 (("r").toList) (("j").toList)).state = wSt9 :=
  ⟨rfl, rfl, rfl, rfl⟩

/-- C9 witness: a cached model, a pure 404 failure, a successful
re-resolution and a failing second attempt — two inference calls, equal
prompts, diagnostic error. -/
theorem analyzeResume_retry_policy_witness :
    (analyzeResume wEnv9 wSt9 (("r").toList) (("j").toList)).inferCalls = 2 ∧
    (analyzeResume wEnv9 wSt9 (("r").toList) (("j").toList)).prompts =
      [buildAnalysisPrompt (truncateInput (("r").toList)) (truncateInput (("j").toList)),
       buildAnalysisPrompt (truncateInput (("r").toList)) (truncateInput (("j").toList))] ∧
    (analyzeResume wEnv9 wSt9 (("r").toList) (("j").toList)).result =
      Except.error (diagnosticMsg
        (initializeModel wEnv9.renv
          { (ensureModel wEnv9.renv wSt9).1 with model := none }).1.modelName
        wEnv9.renv.listing wMsg9) := by
  have h := analyzeResume_retry_policy wEnv9 wSt9 (("r").toList) (("j").toList) wMsg9
    rfl rfl rfl rfl (by decide) rfl
  exact ⟨h.1, h.2.1, h.2.2.2.1 (("boom").toList) rfl⟩

/-- C10: the analyze route performs zero store writes on every path and
on success always answers `firestoreId: null, saved: false`; the save
route requires an authorization header and a verified token before any
store contact, and `saveAnalysis` refuses the write without touching the
store when no user ID (or an empty one) is available. -/
theorem analyze_route_no_store_write :
    (∀ hasFile jd ext ai, (handleAnalyze hasFile jd ext ai).2 = 0) ∧
    (∀ hasFile jd ext ai d fid sv,
      (handleAnalyze hasFile jd ext ai).1 = AnalyzeResp.okResp d fid sv →
      fid = none ∧ sv = false) ∧
    (∀ verify body init dbAdd,
      handleSaveAnalysis none verify body init dbAdd =
        (SaveResp.unauthorized (("Authentication required to save results").toList), 0)) ∧
    (∀ hdr verify body init dbAdd, verify (stripBearer hdr) = none →
      handleSaveAnalysis (some hdr) verify body init dbAdd =
        (SaveResp.unauthorized
          (("Invalid or expired session. Please log in again.").toList), 0)) ∧
    (∀ init dbAdd,
      (saveAnalysisSvc init none dbAdd).1.success = false ∧
      (saveAnalysisSvc init none dbAdd).2 = 0) ∧
    (∀ init dbAdd,
      (saveAnalysisSvc init (some []) dbAdd).1.success = false ∧
      (saveAnalysisSvc init (some []) dbAdd).2 = 0) := by
  refine ⟨?_, ?_, ?_, ?_, ?_, ?_⟩
  · intro hasFile jd ext ai
    simp only [handleAnalyze]
    repeat' split
    all_goals rfl
  · intro hasFile jd ext ai d fid sv h
    simp only [handleAnalyze] at h
    repeat' split at h
    all_goals simp_all
  · intro verify body init dbAdd
    rfl
  · intro hdr verify body init dbAdd hv
    simp [handleSaveAnalysis, hv]
  · intro init dbAdd
    cases init <;> exact ⟨rfl, rfl⟩
  · intro init dbAdd
    cases init <;> exact ⟨rfl, rfl⟩

/-- C10 witness: a concrete successful analysis answers with no store
write, `firestoreId` null and `saved` false; concrete save calls without
a header, with a failing verifier, and with a missing or empty user ID
all refuse without store contact. -/
theorem analyze_route_no_store_write_witness :
    (handleAnalyze true (some (("d").toList)) (Except.ok (("t").toList))
        (Except.ok sampleAnalysis)).2 = 0 ∧
    ((none : Option Str) = none ∧ false = false) ∧
    handleSaveAnalysis none (fun _ => none) none true (Except.ok []) =
      (SaveResp.unauthorized (("Authentication required to save results").toList), 0) ∧
    handleSaveAnalysis (some (("Bearer x").toList)) (fun _ => none)
        (some (sampleAnalysis, [])) true (Except.ok []) =
      (SaveResp.unauthorized
        (("Invalid or expired session. Please log in again.").toList), 0) ∧
    (saveAnalysisSvc true none (Except.ok (("id1").toList))).2 = 0 ∧
    (saveAnalysisSvc true (some []) (Except.ok (("id1").toList))).2 = 0 := by
  have h := analyze_route_no_store_write
  refine ⟨h.1 true (some (("d").toList)) (Except.ok (("t").toList)) (Except.ok sampleAnalysis),
    h.2.1 true (some (("d").toList)) (Except.ok (("t").toList)) (Except.ok sampleAnalysis)
      sampleAnalysis none false rfl,
    h.2.2.1 (fun _ => none) none true (Except.ok []),
    h.2.2.2.1 (("Bearer x").toList) (fun _ => none) (some (sampleAnalysis, [])) true
      (Except.ok []) rfl,
    (h.2.2.2.2.1 true (Except.ok (("id1").toList))).2,
    (h.2.2.2.2.2 true (Except.ok (("id1").toList))).2⟩

end ApplyMate
